import Mathlib

/-!
Verification of the debate_system repository.

This file gives a shallow embedding, in Lean 4, of the pieces of the
repository that the claims C1..C10 are about, and settles each claim.

Modelling conventions:
* Python strings are Lean `String`s; low-level scans work on `List Char`.
* Python floats are modelled as `Rat`. Every comparison exercised by the
  claims involves short decimal literals, where rational and IEEE-754
  semantics agree.
* Python dicts are insertion-ordered association lists `List (String × α)`.
* Code that can raise returns `Except String α` (the message is the
  exception rendering); code whose only failure is a `KeyError`-style
  lookup returns `Option α`.
* `list.sort(key=..., reverse=...)` (Timsort) is a stable sort; it is
  modelled by a stable insertion sort on the same key, which is
  extensionally the same function.
-/

namespace Py

/-- Python's `\s` character class (ASCII range), as used by `str.strip`
and the `re` module on the texts considered here. -/
def isSpace (c : Char) : Bool :=
  c = ' ' || c = '\t' || c = '\n' || c = '\r' || c = '\x0b' || c = '\x0c'

/-- `str.strip()` on a list of characters. -/
def stripChars (cs : List Char) : List Char :=
  ((cs.dropWhile isSpace).reverse.dropWhile isSpace).reverse

/-- `str.strip()`. -/
def strip (s : String) : String :=
  String.mk (stripChars s.data)

/-- ASCII `str.lower()` on one character. -/
def lower (c : Char) : Char := c.toLower

/-- Case-insensitive prefix test (`re.IGNORECASE` label matching). -/
def startsWithCI (needle hay : List Char) : Bool :=
  match needle, hay with
  | [], _ => true
  | _ :: _, [] => false
  | n :: ns, h :: hs => (lower n = lower h) && startsWithCI ns hs

/-- Case-sensitive prefix test. -/
def startsWith (needle hay : List Char) : Bool :=
  match needle, hay with
  | [], _ => true
  | _ :: _, [] => false
  | n :: ns, h :: hs => (n = h) && startsWith ns hs

/-- Case-sensitive substring test (Python `in`). -/
def containsSub (needle : List Char) : List Char → Bool
  | [] => startsWith needle []
  | c :: cs => startsWith needle (c :: cs) || containsSub needle cs

/-- Case-insensitive substring test. -/
def containsSubCI (needle : List Char) : List Char → Bool
  | [] => startsWithCI needle []
  | c :: cs => startsWithCI needle (c :: cs) || containsSubCI needle cs

/-- Python `needle in hay` on strings. -/
def strContains (hay needle : String) : Bool :=
  containsSub needle.data hay.data

/-- Index of the first occurrence of `needle` (Python `str.index` /
`str.find`), if any. -/
def findSub (needle : List Char) : List Char → Option Nat
  | [] => if startsWith needle [] then some 0 else none
  | c :: cs =>
    if startsWith needle (c :: cs) then some 0
    else (findSub needle cs).map (· + 1)

/-- The suffix just after the first occurrence of `needle`, if any
(`s.split(sep, 1)[1]`). -/
def afterFirst (needle : List Char) : List Char → Option (List Char)
  | [] => if startsWith needle [] then some [] else none
  | c :: cs =>
    if startsWith needle (c :: cs) then some ((c :: cs).drop needle.length)
    else afterFirst needle cs

/-- The prefix before the first occurrence of `needle`; the whole list
when `needle` does not occur (`s.split(sep)[0]`). -/
def beforeFirst (needle : List Char) (cs : List Char) : List Char :=
  match findSub needle cs with
  | some i => cs.take i
  | none => cs

/-- `s.split(sep)[1]`: the part after the first occurrence of `sep` and
before the next one.  Only meaningful when `sep` occurs in `s`. -/
def betweenFirst (needle cs : List Char) : Option (List Char) :=
  (afterFirst needle cs).map (beforeFirst needle)

/-- Split on newline characters; together with the per-line `strip`
applied by every caller in the repository this models
`str.split('\n')` / `str.splitlines()` on the texts considered. -/
def splitNl (cs : List Char) : List (List Char) :=
  match cs with
  | [] => [[]]
  | c :: cs' =>
    let rest := splitNl cs'
    if c = '\n' then [] :: rest
    else match rest with
      | [] => [[c]]
      | l :: ls => (c :: l) :: ls

/-- The lines of a Python string, as strings. -/
def linesOf (s : String) : List String :=
  (splitNl s.data).map String.mk

/-- Value of a nonempty digit run. -/
def digitsVal (ds : List Char) : Nat :=
  ds.foldl (fun n c => 10 * n + (c.toNat - 48)) 0

/-- Value of a decimal string `intpart.fracpart` as a rational.
(Built with `mkRat` because Batteries seals `Rat.add` and friends as
irreducible, which would block kernel evaluation.) -/
def decimalVal (intPart fracPart : List Char) : Rat :=
  mkRat (digitsVal intPart * 10 ^ fracPart.length + digitsVal fracPart)
    (10 ^ fracPart.length)

/-- Python `float(s)` restricted to the strings produced by the
repository's regex captures: an optional sign, digits and at most one
dot, with at least one digit.  Returns `none` when `float` would raise
`ValueError`. -/
def pyFloat? (s : String) : Option Rat :=
  let cs := stripChars s.data
  let (neg, cs) := match cs with
    | '-' :: rest => (true, rest)
    | '+' :: rest => (false, rest)
    | rest => (false, rest)
  let intPart := cs.takeWhile Char.isDigit
  let rest := cs.dropWhile Char.isDigit
  match rest with
  | [] =>
    if intPart.isEmpty then none
    else some (if neg then -mkRat (digitsVal intPart) 1 else mkRat (digitsVal intPart) 1)
  | '.' :: rest' =>
    let fracPart := rest'.takeWhile Char.isDigit
    let rest'' := rest'.dropWhile Char.isDigit
    if rest''.isEmpty && !(intPart.isEmpty && fracPart.isEmpty) then
      some (if neg then -decimalVal intPart fracPart else decimalVal intPart fracPart)
    else none
  | _ => none

/-- Try a partial match at every position of the text, left to right,
first success wins: the search order of `re.search` for an unanchored
pattern. -/
def scanAt (f : List Char → Option α) : List Char → Option α
  | [] => f []
  | c :: cs =>
    match f (c :: cs) with
    | some a => some a
    | none => scanAt f cs

/-- Helper for `scanLines`: `atStart` records whether the current
position is a line start (position 0 or just after a newline). -/
def scanLinesAux (f : List Char → Option α) : Bool → List Char → Option α
  | atStart, [] => if atStart then f [] else none
  | atStart, c :: cs =>
    if atStart then
      match f (c :: cs) with
      | some a => some a
      | none => scanLinesAux f (c = '\n') cs
    else scanLinesAux f (c = '\n') cs

/-- Try a partial match at every line start, left to right: the search
order of `re.search` for a `^`-anchored pattern under `re.MULTILINE`. -/
def scanLines (f : List Char → Option α) (cs : List Char) : Option α :=
  scanLinesAux f true cs

/-- Partial match for `LABEL` at the current position, case-insensitively,
handing the rest of the text to `tail`. -/
def labelTailCI (label : String) (tail : List Char → Option α)
    (cs : List Char) : Option α :=
  if startsWithCI label.data cs then tail (cs.drop label.data.length) else none

/-- Partial match for `\s*LABEL` at the current position (the form used
with `^` and `re.MULTILINE`); `\s*` may cross newlines. -/
def wsLabelTailCI (label : String) (tail : List Char → Option α)
    (cs : List Char) : Option α :=
  labelTailCI label tail (cs.dropWhile isSpace)

/-- Partial match for `\s*(.+)`-style captures after a label: skip
whitespace (which may cross newlines), then capture a nonempty run of
characters not satisfying `isExcl` (`isExcl` is `= '\n'` for `(.+)` and
`∈ "\n\r"` for `([^\n\r]+)`).  When only whitespace remains, regex
backtracking still matches a single trailing non-excluded whitespace
character if one exists. -/
def captureRest (isExcl : Char → Bool) (rest : List Char) : Option (List Char) :=
  let w := rest.takeWhile isSpace
  let rest2 := rest.dropWhile isSpace
  if rest2 ≠ [] then some (rest2.takeWhile fun c => !isExcl c)
  else
    match (w.filter fun c => !isExcl c).getLast? with
    | some c => some [c]
    | none => none

/-- Partial match for `\s*([0-9.]+)` after a label. -/
def captureDigitsDots (rest : List Char) : Option (List Char) :=
  let rest2 := rest.dropWhile isSpace
  let run := rest2.takeWhile fun c => c.isDigit || c = '.'
  if run ≠ [] then some run else none

/-- Partial match for `([0-9]*\.?[0-9]+)` at the current position
(greedy with backtracking: a maximal digit run, optionally followed by a
dot and a nonempty maximal digit run; a trailing bare dot is left
unmatched). -/
def matchFloatRun (cs : List Char) : Option (List Char) :=
  let d1 := cs.takeWhile Char.isDigit
  let rest := cs.drop d1.length
  match rest with
  | '.' :: rest' =>
    let d2 := rest'.takeWhile Char.isDigit
    if d2 ≠ [] then some (d1 ++ '.' :: d2)
    else if d1 ≠ [] then some d1 else none
  | _ => if d1 ≠ [] then some d1 else none

/-- Partial match for `\s*([0-9]*\.?[0-9]+)` after a label. -/
def captureFloat (rest : List Char) : Option (List Char) :=
  matchFloatRun (rest.dropWhile isSpace)

/-- Greedily consume `(?:,\d{3})+` groups, returning the consumed text. -/
def thousandsGroups : List Char → List Char
  | ',' :: a :: b :: c :: rest =>
    if a.isDigit && b.isDigit && c.isDigit then
      ',' :: a :: b :: c :: thousandsGroups rest
    else []
  | _ => []

/-- One match attempt of `-?\d{1,3}(?:,\d{3})+|-?\d+(?:\.\d+)?` at the
current position, returning the matched token (the first alternative is
tried first; the match consumes exactly the token's characters). -/
def numToken (cs : List Char) : Option (List Char) :=
  let (sign, cs1) := match cs with
    | '-' :: rest => (['-'], rest)
    | rest => (([] : List Char), rest)
  let d := cs1.takeWhile Char.isDigit
  if d = [] then none
  else
    let rest := cs1.drop d.length
    let groups := thousandsGroups rest
    if d.length ≤ 3 && groups ≠ [] then
      some (sign ++ d ++ groups)
    else
      match rest with
      | '.' :: rest' =>
        let frac := rest'.takeWhile Char.isDigit
        if frac ≠ [] then some (sign ++ d ++ '.' :: frac)
        else some (sign ++ d)
      | _ => some (sign ++ d)

/-- Fuel-based worker for `findallNums` (the fuel, initially the text
length, dominates the number of scan steps; structural recursion keeps
the function kernel-reducible). -/
def findallNumsGo : Nat → List Char → List (List Char)
  | 0, _ => []
  | _, [] => []
  | fuel + 1, c :: cs =>
    match numToken (c :: cs) with
    | some tok => tok :: findallNumsGo fuel (cs.drop (tok.length - 1))
    | none => findallNumsGo fuel cs

/-- `re.findall` for the number pattern above: scan left to right,
non-overlapping matches (a successful match, always nonempty, resumes
just after its last character). -/
def findallNums (cs : List Char) : List (List Char) :=
  findallNumsGo cs.length cs

end Py

namespace Models

/-- `models.RolePreference` (src/models.py). -/
structure RolePreference where
  preferred_roles : List String
  confidence_by_role : List (String × Rat)
  reasoning : String
  self_assessment : String
deriving Repr, DecidableEq

/-- `dict.get(role, 0)` on a confidence map. -/
def RolePreference.confGet (p : RolePreference) (role : String) : Rat :=
  (p.confidence_by_role.lookup role).getD (mkRat 0 1)

/-- `models.Solution` (src/models.py, lines 61-78).  Note that the
dataclass has exactly these six fields and in particular no `timestamp`
field. -/
structure Solution where
  solver_id : String
  solution_text : String
  final_answer : String
  confidence : Rat
  reasoning_steps : List String
  assumptions : List String
deriving Repr, DecidableEq

/-- The `__init__` keyword names accepted by the `models.Solution`
dataclass. -/
def Solution.initFieldNames : List String :=
  ["solver_id", "solution_text", "final_answer", "confidence",
   "reasoning_steps", "assumptions"]

/-- `models.ErrorType`. -/
inductive ErrorType where
  | logical_error | calculation_error | assumption_error | missing_case
deriving Repr, DecidableEq

/-- `models.Severity`. -/
inductive Severity where
  | critical | high | medium | low
deriving Repr, DecidableEq

/-- `models.Assessment`. -/
inductive Assessment where
  | correct | promising_but_flawed | fundamentally_flawed | incomplete
deriving Repr, DecidableEq

/-- `models.Error`. -/
structure ReviewError where
  location : String
  error_type : ErrorType
  description : String
  severity : Severity
  suggested_fix : String
deriving Repr, DecidableEq

/-- `models.PeerReview`. -/
structure PeerReview where
  reviewer_id : String
  solution_id : String
  strengths : List String
  weaknesses : List String
  errors : List ReviewError
  suggested_changes : List String
  overall_assessment : Assessment
  confidence : Rat
deriving Repr, DecidableEq

/-- `models.CritiqueResponse`. -/
structure CritiqueResponse where
  critique_id : String
  accepted : Bool
  response : String
  changes_made : String
deriving Repr, DecidableEq

/-- `models.RefinedSolution`. -/
structure RefinedSolution where
  original_solution_id : String
  changes_made : List CritiqueResponse
  refined_solution : String
  refined_answer : String
  confidence : Rat
deriving Repr, DecidableEq

end Models

namespace SolutionGeneration

open Models Py

/-- Strip a `^\d+[\.\)]\s*` enumerator from a line
(`re.sub(r'^\d+[\.\)]\s*', '', line)`): when the line starts with a
digit run followed by `.` or `)`, drop them and any following
whitespace; otherwise the line is unchanged. -/
def stripEnum (cs : List Char) : List Char :=
  let d := cs.takeWhile Char.isDigit
  if d = [] then cs
  else
    match cs.drop d.length with
    | '.' :: rest => rest.dropWhile isSpace
    | ')' :: rest => rest.dropWhile isSpace
    | _ => cs

/-- The reasoning-steps section sliced out by
`SolutionGenerator._parse_solution` (src/solution_generation.py, lines
59-65): `split("Reasoning Steps:")[1]` is the text between the first
occurrence of the header and the next one, then cut before
"Assumptions:" or "Final Answer:" depending on which header occurs in
the whole response. -/
def reasoningSection (rc : List Char) : Option (List Char) :=
  if containsSub "Reasoning Steps:".data rc then
    (betweenFirst "Reasoning Steps:".data rc).map fun sec =>
      if containsSub "Assumptions:".data rc then
        beforeFirst "Assumptions:".data sec
      else if containsSub "Final Answer:".data rc then
        beforeFirst "Final Answer:".data sec
      else sec
  else none

/-- The numbered lines harvested from the reasoning section (lines 67-75
of src/solution_generation.py): stripped lines starting with a digit,
with leading enumerators removed, empty results skipped. -/
def reasoningStepsOf (rc : List Char) : List String :=
  match reasoningSection rc with
  | none => []
  | some sec =>
    ((splitNl (stripChars sec)).map stripChars).foldr
      (fun line acc =>
        if line ≠ [] && (line.headD ' ').isDigit then
          let step := stripEnum line
          if step ≠ [] then String.mk step :: acc else acc
        else acc) []

/-- The assumptions section and its bulleted lines (lines 77-90 of
src/solution_generation.py). -/
def assumptionsOf (rc : List Char) : List String :=
  if containsSub "Assumptions:".data rc then
    match betweenFirst "Assumptions:".data rc with
    | none => []
    | some sec =>
      let sec :=
        if containsSub "Final Answer:".data rc then
          beforeFirst "Final Answer:".data sec
        else sec
      ((splitNl (stripChars sec)).map stripChars).foldr
        (fun line acc =>
          match line with
          | '-' :: rest =>
            let a := stripChars rest
            if a ≠ [] then String.mk a :: acc else acc
          | _ => acc) []
  else []

/-- The final-answer extraction (lines 92-107 of
src/solution_generation.py): the first of the four label patterns that
matches anywhere in the text, case-insensitively, capturing the rest of
the line; the result is stripped and truncated before a literal
`Confidence:` if one is embedded in it. -/
def finalAnswerOf (rc : List Char) : String :=
  let patterns := ["Final Answer:", "Answer:", "Solution:", "Result:"]
  let raw : List Char :=
    match patterns.firstM (fun p =>
        scanAt (labelTailCI p (captureRest (· = '\n'))) rc) with
    | some cap =>
      let ans := stripChars cap
      if containsSub "Confidence:".data ans then
        stripChars (beforeFirst "Confidence:".data ans)
      else ans
    | none => []
  String.mk raw

/-- The confidence extraction (lines 109-115 of
src/solution_generation.py): `re.search(r'Confidence:\s*([0-9.]+)', rc,
re.IGNORECASE)` followed by `float`, defaulting to 0.5 both when the
pattern does not match and when `float` raises. -/
def confidenceOf (rc : List Char) : Rat :=
  match scanAt (labelTailCI "Confidence:" captureDigitsDots) rc with
  | some cap => (pyFloat? (String.mk cap)).getD (mkRat 1 2)
  | none => mkRat 1 2

/-- The six field values computed by `SolutionGenerator._parse_solution`
(src/solution_generation.py, lines 48-129) before the record is
constructed; the whole stripped response becomes the single reasoning
step when no numbered steps were harvested. -/
def parseSolutionFields (response : String) (solver_id : String) : Solution :=
  let rc := stripChars response.data
  let steps := reasoningStepsOf rc
  { solver_id := solver_id
    solution_text := String.mk rc
    final_answer := finalAnswerOf rc
    confidence := confidenceOf rc
    reasoning_steps := if steps = [] then [String.mk rc] else steps
    assumptions := assumptionsOf rc }

/-- The keyword names `_parse_solution` passes to the `Solution`
constructor (src/solution_generation.py, lines 121-129) — including
`timestamp`, which `models.Solution` does not declare. -/
def parseSolutionCallKeywords : List String :=
  ["solver_id", "solution_text", "final_answer", "confidence",
   "reasoning_steps", "assumptions", "timestamp"]

/-- `SolutionGenerator._parse_solution`: the field computation followed
by the dataclass constructor call.  A Python dataclass `__init__`
raises `TypeError` on any unexpected keyword argument, so the call
succeeds only if every keyword passed is a declared field. -/
def parse_solution (response : String) (solver_id : String) :
    Except String Solution :=
  if parseSolutionCallKeywords.all (Solution.initFieldNames.contains ·) then
    .ok (parseSolutionFields response solver_id)
  else
    .error "TypeError: Solution.__init__() got an unexpected keyword argument 'timestamp'"

end SolutionGeneration

namespace PeerReview

open Models

/-- `reviews[solution_id].append(review)`: appends to the entry with the
given key, or fails (Python `KeyError`) when the key is absent. -/
def appendReview (m : List (String × List PeerReview)) (k : String)
    (v : PeerReview) : Option (List (String × List PeerReview)) :=
  if (m.map Prod.fst).contains k then
    some (m.map fun kv => if kv.1 = k then (kv.1, kv.2 ++ [v]) else kv)
  else none

/-- The inner loop of `PeerReviewSystem.conduct_peer_review`
(src/peer_review.py, lines 148-153) for one reviewer: walk the
solutions dict in order and append a generated review under each
solution key different from the reviewer.  `gen` abstracts
`generate_review` (the LLM call composed with `_parse_review`). -/
def reviewPass (gen : String → Solution → PeerReview) (reviewer : String) :
    List (String × Solution) → List (String × List PeerReview) →
    Option (List (String × List PeerReview))
  | [], m => some m
  | (sid, sol) :: rest, m =>
    if reviewer ≠ sid then
      match appendReview m sid (gen reviewer sol) with
      | some m2 => reviewPass gen reviewer rest m2
      | none => none
    else reviewPass gen reviewer rest m

/-- The outer loop over reviewers. -/
def reviewLoop (gen : String → Solution → PeerReview)
    (solutions : List (String × Solution)) :
    List String → List (String × List PeerReview) →
    Option (List (String × List PeerReview))
  | [], m => some m
  | r :: rs, m =>
    match reviewPass gen r solutions m with
    | some m2 => reviewLoop gen solutions rs m2
    | none => none

/-- `PeerReviewSystem.conduct_peer_review` (src/peer_review.py, lines
144-155): initialise an empty review list per solver, then every
reviewer reviews every solution whose key differs from it. -/
def conduct_peer_review (gen : String → Solution → PeerReview)
    (solvers : List String) (solutions : List (String × Solution)) :
    Option (List (String × List PeerReview)) :=
  reviewLoop gen solutions solvers (solvers.map fun s => (s, []))

end PeerReview

namespace Utils

open Py

/-- `utils.extract_final_answer` (src/utils.py, lines 20-33): the first
of the four label patterns `r'Final Answer:\s*(.+)'`, `Answer:`,
`Solution:`, `Result:` that matches anywhere in the text,
case-insensitively and unanchored; the captured rest-of-line is
stripped; the empty string when none matches. -/
def extract_final_answer (text : String) : String :=
  let patterns := ["Final Answer:", "Answer:", "Solution:", "Result:"]
  match patterns.firstM (fun p =>
      scanAt (labelTailCI p (captureRest (· = '\n'))) text.data) with
  | some cap => String.mk (stripChars cap)
  | none => ""

end Utils

namespace Py

/-- Fuel-based worker for `removeAll`. -/
def removeAllGo (needle : List Char) : Nat → List Char → List Char
  | 0, cs => cs
  | _, [] => []
  | fuel + 1, c :: cs =>
    if needle ≠ [] ∧ startsWith needle (c :: cs) then
      removeAllGo needle fuel (cs.drop (needle.length - 1))
    else c :: removeAllGo needle fuel cs

/-- `str.replace(needle, '')`: remove every occurrence of a nonempty
`needle`. -/
def removeAll (needle cs : List Char) : List Char :=
  removeAllGo needle cs.length cs

/-- `str.lower()` on a whole string (ASCII). -/
def lowerStr (cs : List Char) : List Char := cs.map lower

end Py

namespace Refinement

open Models Py

/-- The `re.split(r'confidence\s*:', ..., re.IGNORECASE)` cut position:
index of the first case-insensitive `confidence`, possibly followed by
whitespace, then a colon. -/
def confColonIdx : List Char → Option Nat
  | [] => none
  | c :: cs =>
    let here :=
      startsWithCI "confidence".data (c :: cs) &&
        (match ((c :: cs).drop 10).dropWhile isSpace with
         | ':' :: _ => true
         | _ => false)
    if here then some 0 else (confColonIdx cs).map (· + 1)

/-- Lines 94-97 of src/refinement.py: when the captured answer mentions
"confidence" (case-insensitively), keep only the part before the first
`confidence\s*:` and strip it; `re.split` returns the whole string when
the separator never matches. -/
def stripConfSuffix (ans : String) : String :=
  if containsSubCI "confidence".data ans.data then
    match confColonIdx ans.data with
    | some i => Py.strip (String.mk (ans.data.take i))
    | none => Py.strip ans
  else ans

/-- Lines 85-91 of src/refinement.py: the first of the three
`^`-anchored, multiline, case-insensitive label patterns
`Refined Answer:` / `Final Answer:` / `Answer:` that matches, with its
rest-of-line capture (excluding `\n` and `\r`) stripped. -/
def layerAnswer (text : List Char) : Option String :=
  ["Refined Answer:", "Final Answer:", "Answer:"].firstM fun p =>
    (scanLines (wsLabelTailCI p (captureRest fun c => c = '\n' || c = '\r'))
        text).map fun cap => String.mk (stripChars cap)

/-- Lines 102-107 of src/refinement.py: the multiline
`^\s*Confidence:\s*([0-9]*\.?[0-9]+)` search; 0.8 when it fails
(`float` cannot fail on this capture shape, so the `except` is dead). -/
def confidenceOf (text : List Char) : Rat :=
  match scanLines (wsLabelTailCI "Confidence:" captureFloat) text with
  | some cap => (pyFloat? (String.mk cap)).getD (mkRat 4 5)
  | none => mkRat 4 5

/-- Lines 109-120 of src/refinement.py: the refined-solution block from
after "Refined Solution:" to the earliest following marker among
"Changes Made:", "Refined Answer:", "Final Answer:", "Confidence:";
the whole text when the header is absent. -/
def refinedSolutionOf (text : List Char) : String :=
  if containsSub "Refined Solution:".data text then
    let start := (findSub "Refined Solution:".data text).getD 0 +
      "Refined Solution:".length
    let sub := text.drop start
    let stop := ["Changes Made:", "Refined Answer:", "Final Answer:",
        "Confidence:"].foldl
      (fun e marker =>
        if containsSub marker.data sub then
          let mp := start + (findSub marker.data sub).getD 0
          if mp < e then mp else e
        else e) text.length
    String.mk (stripChars ((text.take stop).drop start))
  else String.mk text

/-- The state threaded through the "Changes Made" line loop
(lines 129-161 of src/refinement.py). -/
structure ChangesSt where
  critique : String
  response : String
  accepted : Bool
  changes : String
  acc : List CritiqueResponse

/-- Close the critique currently being accumulated, if any. -/
def pushCur (st : ChangesSt) : List CritiqueResponse :=
  if st.critique ≠ "" then
    st.acc ++ [{ critique_id := "critique_" ++ toString (st.acc.length + 1)
                 accepted := st.accepted
                 response := st.response
                 changes_made := st.changes }]
  else st.acc

/-- One stripped line of the "Changes Made" section. -/
def changesStep (st : ChangesSt) (line : List Char) : ChangesSt :=
  if startsWith "- Critique:".data line then
    { critique := Py.strip (String.mk (removeAll "- Critique:".data line))
      response := "", accepted := false, changes := "", acc := pushCur st }
  else if startsWith "Response:".data line then
    { st with response := Py.strip (String.mk (removeAll "Response:".data line)) }
  else if startsWith "Accepted:".data line then
    { st with accepted := containsSub "true".data (lowerStr line) }
  else if startsWith "Changes:".data line then
    { st with changes := Py.strip (String.mk (removeAll "Changes:".data line)) }
  else st

/-- Lines 122-161 of src/refinement.py: parse the section after the
first "Changes Made:" (cut before a following "Refined Solution:") into
`CritiqueResponse` records. -/
def changesMadeOf (text : List Char) : List CritiqueResponse :=
  if containsSub "Changes Made:".data text then
    let sect := (afterFirst "Changes Made:".data text).getD []
    let sect :=
      if containsSub "Refined Solution:".data sect then
        beforeFirst "Refined Solution:".data sect
      else sect
    let final := ((splitNl sect).map stripChars).foldl changesStep
      ⟨"", "", false, "", []⟩
    pushCur final
  else []

/-- `RefinementSystem._parse_refinement` (src/refinement.py, lines
69-197): label extraction first, then `utils.extract_final_answer`,
then the last plausible number; confidence defaults to 0.8; a default
`CritiqueResponse` is synthesised when none were parsed. -/
def parse_refinement (response : String) (solver_id : String) :
    RefinedSolution :=
  let text := stripChars response.data
  let ra_opt := (layerAnswer text).map stripConfSuffix
  let ra0 := ra_opt.getD ""
  let ra1 :=
    if ra_opt = none || ra0 = "" then
      let fb := Utils.extract_final_answer (String.mk text)
      if fb ≠ "" then Py.strip fb else ra0
    else ra0
  let ra2 :=
    if ra1 = "" then
      match (findallNums text).getLast? with
      | some tok => Py.strip (String.mk tok)
      | none => ra1
    else ra1
  let parsed := changesMadeOf text
  let changes :=
    if parsed = [] then
      [{ critique_id := "default", accepted := true,
         response := "Incorporated peer feedback",
         changes_made := "Refined solution based on reviews" }]
    else parsed
  { original_solution_id := solver_id
    changes_made := changes
    refined_solution := refinedSolutionOf text
    refined_answer := ra2
    confidence := confidenceOf text }

end Refinement

namespace Judgment

open Py

/-- The opening brace character, `'\x7b'`. -/
def lbrace : Char := Char.ofNat 123

/-- The closing brace character, `'\x7d'`. -/
def rbrace : Char := Char.ofNat 125

/-- A Python value as produced by `json.loads` and passed around by
`JudgmentSystem._parse_judgment`, which is dynamically typed: the
parsed `winner`, `confidence`, etc. keep whatever type the JSON body
gave them. -/
inductive JVal where
  | str (s : String)
  | num (q : Rat)
  | jbool (b : Bool)
  | jnull
  | obj (fields : List (String × JVal))
deriving Repr

/-- Python truthiness of a `JVal` (`if not winner:` style tests). -/
def JVal.truthy : JVal → Bool
  | .str s => s ≠ ""
  | .num q => q ≠ 0
  | .jbool b => b
  | .jnull => false
  | .obj l => !l.isEmpty

/-- `data.get(key, default)` on a parsed JSON object. -/
def jget (l : List (String × JVal)) (k : String) (d : JVal) : JVal :=
  (l.lookup k).getD d

/-- JSON whitespace. -/
def jsonWs (c : Char) : Bool :=
  c = ' ' || c = '\t' || c = '\n' || c = '\r'

/-- Parse a JSON string literal (no escape sequences, which none of the
texts considered contain). -/
def parseJString (cs : List Char) : Option (String × List Char) :=
  match cs with
  | '"' :: rest =>
    let s := rest.takeWhile (· ≠ '"')
    match rest.drop s.length with
    | '"' :: r => some (String.mk s, r)
    | _ => none
  | _ => none

/-- Parse a JSON number without an exponent part. -/
def parseJNumber (cs : List Char) : Option (Rat × List Char) :=
  let (neg, cs1) := match cs with
    | '-' :: rest => (true, rest)
    | rest => (false, rest)
  let d := cs1.takeWhile Char.isDigit
  if d = [] then none
  else
    match cs1.drop d.length with
    | '.' :: rest' =>
      let f := rest'.takeWhile Char.isDigit
      if f = [] then none
      else
        let v := decimalVal d f
        some (if neg then -v else v, rest'.drop f.length)
    | rest => some ((if neg then -(digitsVal d : Rat) else (digitsVal d : Rat)), rest)

/-- Parse a scalar JSON value: string, number, `true`, `false`, `null`. -/
def parseJScalar (cs : List Char) : Option (JVal × List Char) :=
  match parseJString cs with
  | some (s, r) => some (.str s, r)
  | none =>
    match parseJNumber cs with
    | some (q, r) => some (.num q, r)
    | none =>
      if startsWith "true".data cs then some (.jbool true, cs.drop 4)
      else if startsWith "false".data cs then some (.jbool false, cs.drop 5)
      else if startsWith "null".data cs then some (.jnull, cs.drop 4)
      else none

/-- Parse the members of a flat JSON object after the opening brace. -/
def parseJMembers : Nat → List Char → Option (List (String × JVal) × List Char)
  | 0, _ => none
  | n + 1, cs =>
    let cs := cs.dropWhile jsonWs
    match parseJString cs with
    | none => none
    | some (k, r) =>
      match (r.dropWhile jsonWs) with
      | ':' :: r2 =>
        match parseJScalar (r2.dropWhile jsonWs) with
        | none => none
        | some (v, r3) =>
          match r3.dropWhile jsonWs with
          | c :: r4 =>
            if c = ',' then
              (parseJMembers n r4).map fun (rest, r5) => ((k, v) :: rest, r5)
            else if c = rbrace then some ([(k, v)], r4)
            else none
          | [] => none
      | _ => none

/-- Model of `json.loads` restricted to flat objects whose values are
scalars, which covers every JSON body considered in this development;
`none` models `json.JSONDecodeError`. -/
def json_loads (s : String) : Option JVal :=
  let cs := s.data.dropWhile jsonWs
  match cs with
  | c :: rest =>
    if c = lbrace then
      let rest' := rest.dropWhile jsonWs
      match rest' with
      | c2 :: r2 =>
        if c2 = rbrace then
          if (r2.dropWhile jsonWs).isEmpty then some (.obj []) else none
        else
          match parseJMembers (rest'.length + 1) rest' with
          | some (fields, r3) =>
            if (r3.dropWhile jsonWs).isEmpty then some (.obj fields) else none
          | none => none
      | [] => none
    else none
  | [] => none

/-- The `models.Judgment` record as constructed at the end of
`JudgmentSystem._parse_judgment` (src/judgment.py, lines 186-192).  The
class itself is absent from src/models.py (it is imported from the
repository's models module); its shape here is fixed by that
construction site: five positional fields, dynamically typed, and in
particular no winner-validation or warning field of any kind. -/
structure Judgment where
  winner : JVal
  confidence : JVal
  reasoning : JVal
  evaluation_criteria : JVal
  ranking : JVal
deriving Repr

/-- Insert-or-update on an insertion-ordered dict. -/
def dictSet (l : List (String × α)) (k : String) (v : α) : List (String × α) :=
  if (l.map Prod.fst).contains k then
    l.map fun kv => if kv.1 = k then (kv.1, v) else kv
  else l ++ [(k, v)]

/-- Mutable state of the text-format parsing loop of
`_parse_judgment` (src/judgment.py, lines 94-152). -/
structure TextSt where
  winner : String
  confidence : Rat
  reasoning : String
  evaluation_criteria : List (String × Rat)
  ranking : List (String × Nat)

/-- A `- Label:` criteria line: `float(line.split(':')[1].strip())`,
ignored when `float` raises. -/
def criteriaStep (st : TextSt) (key : String) (line : List Char) : TextSt :=
  match (betweenFirst [':'] line).bind fun part =>
      pyFloat? (String.mk (stripChars part)) with
  | some score =>
    { st with evaluation_criteria := dictSet st.evaluation_criteria key score }
  | none => st

/-- A ranking line `N. solver - reason`: the solver id is the part
before " - " with the literal `N.` removed (everywhere) and, when it
contains a colon, the segment after the first colon. -/
def rankSolverId (enum : String) (line : List Char) : String :=
  let part := beforeFirst " - ".data line
  let solver_part := Py.strip (String.mk (removeAll enum.data part))
  if containsSub [':'] solver_part.data then
    Py.strip (String.mk ((betweenFirst [':'] solver_part.data).getD []))
  else solver_part

/-- One stripped, nonempty line of the text-format branch. -/
def textStep (st : TextSt) (line : List Char) : TextSt :=
  if startsWith "Winner:".data line then
    { st with winner := Py.strip (String.mk (removeAll "Winner:".data line)) }
  else if startsWith "Confidence:".data line then
    { st with confidence :=
        (pyFloat? (Py.strip (String.mk (removeAll "Confidence:".data line)))).getD (mkRat 0 1) }
  else if startsWith "Reasoning:".data line then
    { st with reasoning := Py.strip (String.mk (removeAll "Reasoning:".data line)) }
  else if startsWith "- Logical Soundness:".data line then
    criteriaStep st "Logical Soundness" line
  else if startsWith "- Completeness:".data line then
    criteriaStep st "Completeness" line
  else if startsWith "- Error Handling:".data line then
    criteriaStep st "Error Handling" line
  else if startsWith "- Peer Review Integration:".data line then
    criteriaStep st "Peer Review Integration" line
  else if startsWith "1. ".data line then
    let sid := rankSolverId "1." line
    let st := { st with ranking := dictSet st.ranking sid 1 }
    if st.winner = "" then { st with winner := sid } else st
  else if startsWith "2. ".data line then
    { st with ranking := dictSet st.ranking (rankSolverId "2." line) 2 }
  else if startsWith "3. ".data line then
    { st with ranking := dictSet st.ranking (rankSolverId "3." line) 3 }
  else st

/-- The five parsed values before post-processing. -/
structure Parsed where
  winner : JVal
  confidence : JVal
  reasoning : JVal
  evaluation_criteria : JVal
  ranking : JVal

/-- The branch on `response_clean.startswith(lbrace)`: a JSON attempt
(failures keep every default) or the line-oriented text format. -/
def parsedOf (response_clean : String) : Parsed :=
  if response_clean.data.headD ' ' = lbrace then
    match json_loads response_clean with
    | some (.obj data) =>
      { winner := jget data "winner" (.str "")
        confidence := jget data "confidence" (.num (mkRat 0 1))
        reasoning := jget data "reasoning" (.str "")
        evaluation_criteria := jget data "evaluation_criteria" (.obj [])
        ranking := jget data "ranking" (.obj []) }
    | _ =>
      { winner := .str "", confidence := .num (mkRat 0 1), reasoning := .str ""
        evaluation_criteria := .obj [], ranking := .obj [] }
  else
    let st : TextSt := ⟨"", mkRat 0 1, "", [], []⟩
    let final := ((splitNl response_clean.data).map stripChars).foldl
      (fun st line => if line = [] then st else textStep st line) st
    { winner := .str final.winner
      confidence := .num final.confidence
      reasoning := .str final.reasoning
      evaluation_criteria := .obj (final.evaluation_criteria.map
        fun kv => (kv.1, .num kv.2))
      ranking := .obj (final.ranking.map fun kv => (kv.1, .num kv.2)) }

/-- The first ranking key whose value equals 1
(lines 159-163 of src/judgment.py); `==` between a JSON value and the
int 1 is `False` for non-numbers, never an error. -/
def rankOneKey : JVal → Option String
  | .obj l => (l.find? fun kv =>
      match kv.2 with
      | .num q => q = 1
      | _ => false).map Prod.fst
  | _ => none

/-- The hardcoded default judgment installed when no winner could be
extracted (src/judgment.py, lines 166-176). -/
def claudeDefault : Parsed :=
  { winner := .str "claude"
    confidence := .num (mkRat 4 5)
    reasoning := .str "Default judgment: Claude provided the most logical solution."
    evaluation_criteria := .obj
      [("Logical Soundness", .num (mkRat 8 1)), ("Completeness", .num (mkRat 15 2)),
       ("Error Handling", .num (mkRat 8 1)), ("Peer Review Integration", .num (mkRat 7 1))]
    ranking := .obj [("claude", .num 1), ("gemini", .num 2), ("grok", .num 3)] }

/-- Python's `str()` of a parsed value, used only to build the default
reasoning text. -/
def pyStrOf : JVal → String
  | .str s => s
  | .num q => toString q
  | .jbool b => if b then "True" else "False"
  | .jnull => "None"
  | .obj _ => "dict"

/-- Last step of the "Ensure winner is not empty" post-processing: the
hardcoded "claude" default judgment when the winner is still falsy. -/
def claudeUnless (fromRank : Parsed) : Parsed :=
  if fromRank.winner.truthy then fromRank else claudeDefault

/-- The "Ensure winner is not empty" post-processing
(src/judgment.py, lines 156-176): a falsy winner is replaced by the
rank-1 entry of the ranking if there is one, and failing that by the
hardcoded "claude" default judgment. -/
def fixWinner (p : Parsed) : Parsed :=
  if p.winner.truthy then p
  else
    claudeUnless
      (match rankOneKey p.ranking with
       | some s => { p with winner := .str s }
       | none => p)

/-- Python `confidence <= 0` on a parsed value: defined for numbers and
booleans (`bool` is an `int` in Python), a `TypeError` (`none`)
otherwise. -/
def confNonPos : JVal → Option Bool
  | .num q => some (decide (q ≤ 0))
  | .jbool b => some (decide (b = false))
  | _ => none

/-- The confidence and reasoning fixups after the `confidence <= 0`
comparison succeeded (src/judgment.py, lines 178-192): a non-positive
confidence becomes 0.7, an empty reasoning gets a default sentence, and
the `Judgment` record is constructed. -/
def finishJudgment (p : Parsed) (nonpos : Bool) : Judgment :=
  let p1 := if nonpos then { p with confidence := .num (mkRat 7 10) } else p
  let p2 :=
    if p1.reasoning.truthy then p1
    else { p1 with reasoning := .str (pyStrOf p1.winner ++
      "'s solution was judged to be the best based on the evaluation criteria.") }
  ⟨p2.winner, p2.confidence, p2.reasoning, p2.evaluation_criteria, p2.ranking⟩

/-- `JudgmentSystem._parse_judgment` (src/judgment.py, lines 69-192).
The comparison `confidence <= 0` raises `TypeError` (modelled as
`Except.error`) when the parsed confidence is a string or null, since
Python 3 does not order `str` and `int`. -/
def parse_judgment (response : String) : Except String Judgment :=
  let p := fixWinner (parsedOf (Py.strip response))
  -- Ensure confidence is valid: `if confidence <= 0: confidence = 0.7`
  match confNonPos p.confidence with
  | none =>
    .error "TypeError: '<=' not supported between instances of 'str' and 'int'"
  | some nonpos => .ok (finishJudgment p nonpos)

end Judgment

namespace LLMClient

open Py

/-- `LLMClient.__init__` (src/llm_client.py, lines 31-40): the
`USE_MOCK_MODE` environment value (`none` when unset, defaulting to
"true") is lowercased; mock mode is forced unless it is exactly
"false". -/
def use_mock_mode (env : Option String) : Bool :=
  let mock_mode := String.mk (lowerStr (env.getD "true").data)
  let u := mock_mode == "true"
  if mock_mode != "false" then true else u

/-- Verbatim mock text from src/llm_client.py (lines 157-160). -/
def mockRolePref : String :=
  "Preferred roles (in order): [\"Solver\", \"Judge\"]\n            Confidence by role: \x7b\"Solver\": 0.85, \"Judge\": 0.65\x7d\n            Reasoning: I am best suited as a Solver for mathematical problems.\n            Self-assessment: Strong at logical reasoning and calculations."

/-- Verbatim mock text from src/llm_client.py (lines 163-170). -/
def mockReview : String :=
  "\x7b\n                \"strengths\": [\"Clear step-by-step reasoning\", \"Correct formula application\"],\n                \"weaknesses\": [\"Missing edge case verification\", \"Could be more concise\"],\n                \"errors\": [],\n                \"suggested_changes\": [\"Add verification for n=0 edge case\", \"Include alternative approach\"],\n                \"overall_assessment\": \"promising_but_flawed\",\n                \"confidence\": 0.8\n            \x7d"

/-- Verbatim mock text from src/llm_client.py (lines 176-188). -/
def mockRefineFactorial : String :=
  "Changes Made:\n                - Critique: Missing explanation of Legendre's formula\n                  Response: Added detailed explanation of Legendre's formula for trailing zeros\n                  Accepted: true\n                  Changes: Added step-by-step calculation using floor(n/5) + floor(n/25) + floor(n/125) + ...\n\n                Refined Solution: The number of trailing zeros in n! is given by the sum: floor(n/5) + floor(n/25) + floor(n/125) + ...\n                We need this sum to equal 20.\n                Checking n=80: floor(80/5)=16, floor(80/25)=3, floor(80/125)=0 → total=19\n                Checking n=85: floor(85/5)=17, floor(85/25)=3, floor(85/125)=0 → total=20\n                Therefore, the smallest n is 85.\n                Refined Answer: 85\n                Confidence: 0.95"

/-- Verbatim mock text from src/llm_client.py (lines 191-199). -/
def mockRefineCoin : String :=
  "Changes Made:\n                - Critique: Missing edge case verification\n                  Response: Added verification for all edge cases\n                  Accepted: true\n                  Changes: Added section on edge case analysis\n\n                Refined Solution: Updated solution with edge case verification. The probability remains 0 because heads must be exactly twice tails, which requires heads to be 2/3 of total flips, but 10 is not divisible by 3.\n                Refined Answer: 0.0000\n                Confidence: 0.95"

/-- Verbatim mock text from src/llm_client.py (lines 202-210). -/
def mockRefineGeneric : String :=
  "Changes Made:\n                - Critique: Could be more detailed\n                  Response: Added more detailed explanation\n                  Accepted: true\n                  Changes: Expanded reasoning steps\n\n                Refined Solution: Improved solution with more detailed reasoning and verification.\n                Refined Answer: 42\n                Confidence: 0.9"

/-- Verbatim mock text from src/llm_client.py (lines 236-250). -/
def mockSolutionFactorial : String :=
  "Reasoning Steps:\n                1. The number of trailing zeros in n! is determined by the number of factors of 5 in n!\n                2. This is given by Legendre's formula: floor(n/5) + floor(n/25) + floor(n/125) + ...\n                3. We need the smallest n such that this sum equals 20\n                4. Let's test values:\n                   - For n=80: floor(80/5)=16, floor(80/25)=3, floor(80/125)=0 → total=19\n                   - For n=85: floor(85/5)=17, floor(85/25)=3, floor(85/125)=0 → total=20\n                5. Therefore, n=85 is the smallest integer with exactly 20 trailing zeros\n\n                Assumptions:\n                - We count trailing zeros in decimal representation\n                - We use Legendre's formula for prime factor 5\n\n                Final Answer: 85\n                Confidence: 0.95"

/-- Verbatim mock text from src/llm_client.py (lines 253-267). -/
def mockSolutionCoin : String :=
  "Reasoning Steps:\n                1. Let H = number of heads, T = number of tails\n                2. We have H + T = 10 (total flips)\n                3. Condition: H = 2T (heads is exactly twice tails)\n                4. Substitute: 2T + T = 10 → 3T = 10 → T = 10/3 ≈ 3.333\n                5. Since T must be an integer, no integer solution exists\n                6. Therefore, probability = 0\n\n                Assumptions:\n                - Coin is fair (p=0.5 for heads)\n                - Flips are independent\n                - The condition requires exact equality (H = 2T exactly)\n\n                Final Answer: 0.0000\n                Confidence: 0.95"

/-- Verbatim mock text from src/llm_client.py (lines 270-281). -/
def mockSolutionGeneric : String :=
  "Reasoning Steps:\n                1. Analyze the problem statement\n                2. Apply relevant formulas/theorems\n                3. Perform calculations\n                4. Verify the result\n\n                Assumptions:\n                - Standard mathematical assumptions apply\n                - All conditions as stated in the problem\n\n                Final Answer: 42\n                Confidence: 0.9"

/-- One match attempt of `"solver_id":\s*"([^"]+)"` at the current
position: the capture and the total number of characters consumed. -/
def trySolverId (cs : List Char) : Option (List Char × Nat) :=
  if startsWith "\"solver_id\":".data cs then
    let afterLabel := cs.drop 12
    let w := afterLabel.takeWhile isSpace
    let r := afterLabel.drop w.length
    match r with
    | '"' :: rest =>
      let cap := rest.takeWhile (· ≠ '"')
      if cap ≠ [] && (rest.drop cap.length).headD ' ' = '"' then
        some (cap, 12 + w.length + 1 + cap.length + 1)
      else none
    | _ => none
  else none

/-- Fuel-based worker for `findSolverIds`. -/
def findSolverIdsGo : Nat → List Char → List String
  | 0, _ => []
  | _, [] => []
  | fuel + 1, c :: cs =>
    match trySolverId (c :: cs) with
    | some (cap, k) => String.mk cap :: findSolverIdsGo fuel (cs.drop (k - 1))
    | none => findSolverIdsGo fuel cs

/-- `re.findall(r'"solver_id":\s*"([^"]+)"', prompt)` (line 215 of
src/llm_client.py): left-to-right, non-overlapping. -/
def findSolverIds (cs : List Char) : List String :=
  findSolverIdsGo cs.length cs

/-- The ranking dict `{solver: i + 1 for i, solver in
enumerate(solvers)}` (line 229 of src/llm_client.py): insertion order,
later duplicates overwrite. -/
def rankingDict (solvers : List String) : List (String × Nat) :=
  solvers.enum.foldl (fun acc iv => Judgment.dictSet acc iv.2 (iv.1 + 1)) []

/-- `json.dumps` of the mock judgment (lines 219-230 of
src/llm_client.py), with the default separators and float rendering
(solver ids contain no characters needing JSON escapes). -/
def mockJudgeResponse (solvers : List String) : String :=
  let s0 := solvers.headD ""
  let ranking := "\x7b" ++ String.intercalate ", "
      ((rankingDict solvers).map fun kv => "\"" ++ kv.1 ++ "\": " ++ toString kv.2) ++
    "\x7d"
  "\x7b\"winner\": \"" ++ s0 ++ "\", \"confidence\": 0.85, \"reasoning\": \"" ++ s0 ++
    "'s solution was the most complete and accurate.\", \"evaluation_criteria\": " ++
    "\x7b\"Logical Soundness\": 9.0, \"Completeness\": 8.5, \"Error Handling\": 8.0, " ++
    "\"Peer Review Integration\": 8.0\x7d, \"ranking\": " ++ ranking ++ "\x7d"

/-- `LLMClient._get_mock_response` (src/llm_client.py, lines 148-281):
a pure function of the model name and the prompt. -/
def get_mock_response (model_name prompt : String) : String :=
  let _ := model_name
  let pl := lowerStr prompt.data
  let pd := prompt.data
  if containsSub "role".data pl && containsSub "preference".data pl then
    mockRolePref
  else if containsSub "review".data pl || containsSub "critique".data pl then
    mockReview
  else if containsSub "refine".data pl || containsSub "changes_made".data pl then
    if containsSub "n! ends with exactly 20 zeros".data pd ||
        (containsSub "factorial".data pd && containsSub "20 zeros".data pd) then
      mockRefineFactorial
    else if containsSub "fair coin".data pd || containsSub "probability".data pd then
      mockRefineCoin
    else mockRefineGeneric
  else if containsSub "judge".data pl || containsSub "winner".data pl then
    let solvers := findSolverIds pd
    let solvers := if solvers = [] then ["claude", "gemini", "grok"] else solvers
    mockJudgeResponse solvers
  else
    if containsSub "n! ends with exactly 20 zeros".data pd ||
        (containsSub "factorial".data pd && containsSub "20 zeros".data pd) then
      mockSolutionFactorial
    else if containsSub "fair coin".data pd || containsSub "probability".data pd ||
        containsSub "heads is exactly twice".data pd then
      mockSolutionCoin
    else mockSolutionGeneric

/-- `LLMClient.call_llm` (src/llm_client.py, lines 77-103).  `env` is
the `USE_MOCK_MODE` environment value captured at `__init__`; `real`
abstracts the provider SDK calls (`_call_openai` / `_call_anthropic` /
`_call_google`), whose errors — including uninitialised clients — are
caught and replaced by the mock response; `_call_grok` is the inline
placeholder string. -/
def call_llm (env : Option String) (model_name prompt : String)
    (real : String → String → Except String String) : String :=
  if use_mock_mode env then get_mock_response model_name prompt
  else
    let ml := String.mk (lowerStr model_name.data)
    if strContains ml "gpt" then
      match real "openai" prompt with
      | .ok t => t
      | .error _ => get_mock_response model_name prompt
    else if strContains ml "claude" then
      match real "anthropic" prompt with
      | .ok t => t
      | .error _ => get_mock_response model_name prompt
    else if strContains ml "gemini" then
      match real "google" prompt with
      | .ok t => t
      | .error _ => get_mock_response model_name prompt
    else if strContains ml "grok" then
      "[GROK MOCK] Response to: " ++ String.mk (prompt.data.take 100) ++ "..."
    else get_mock_response model_name prompt

end LLMClient

namespace Pipeline

/-- The method names the class `RoleAssignment` defines
(src/role_assignment.py). -/
def roleAssignmentMethods : List String :=
  ["__init__", "get_role_preference", "_call_llm", "_parse_role_preference",
   "assign_roles_deterministic"]

/-- The attribute name `DebateSystem.run_debate` invokes on its role
assigner (src/main.py, line 73: `self.role_assigner.assign_roles(...)`). -/
def runDebateRoleMethod : String := "assign_roles"

/-- The class names src/models.py defines. -/
def modelsClassNames : List String :=
  ["ErrorType", "Severity", "Assessment", "Error", "RolePreference",
   "Solution", "PeerReview", "CritiqueResponse", "RefinedSolution"]

/-- The names src/judgment.py imports from the models module (line 4 of
src/judgment.py). -/
def judgmentModelsImports : List String :=
  ["Judgment", "Solution", "RefinedSolution", "PeerReview"]

end Pipeline

namespace Fixtures

open Models

/-- A preference map with two tied judge candidates whose dict
(insertion) order disagrees with the ascending order of their ids. -/
def tiedPrefs : List (String × RolePreference) :=
  [("gemini-b", ⟨["Judge"], [("Judge", mkRat 9 10), ("Solver", mkRat 1 2)], "", ""⟩),
   ("gemini-a", ⟨["Judge"], [("Judge", mkRat 9 10), ("Solver", mkRat 1 2)], "", ""⟩),
   ("gemini-c", ⟨["Solver"], [("Judge", mkRat 1 5), ("Solver", mkRat 4 5)], "", ""⟩),
   ("gemini-d", ⟨["Solver"], [("Judge", mkRat 1 10), ("Solver", mkRat 9 10)], "", ""⟩)]

/-- A preference map with fewer than four participants. -/
def smallPrefs : List (String × RolePreference) :=
  [("gemini-1", ⟨["Solver"], [("Judge", mkRat 1 2), ("Solver", mkRat 4 5)], "", ""⟩),
   ("gemini-2", ⟨["Solver"], [("Judge", mkRat 1 2), ("Solver", mkRat 7 10)], "", ""⟩),
   ("gemini-3", ⟨["Judge"], [("Judge", mkRat 9 10), ("Solver", mkRat 3 5)], "", ""⟩)]

/-- A judge response whose winner is outside the solver set
`{"gemini-2", "gemini-3", "gemini-4"}`. -/
def invalidWinnerBody : String :=
  "\x7b\"winner\": \"gemini-5\", \"confidence\": 0.9\x7d"

/-- The judge response body of claim C7. -/
def percentConfidenceBody : String :=
  "\x7b\"winner\": \"gemini-3\", \"confidence\": \"85%\"\x7d"

/-- A refinement response with no `Refined Answer:`/`Final Answer:`/
`Answer:` label but a `Result:` label, plus a later number. -/
def resultLabelText : String := "Result: 99\nthen comes 42"

/-- The truncation scenario of the spec: a labelled answer on the first
line, followed by a discursive solution cut off mid-way. -/
def truncatedRefinement : String :=
  "Refined Answer: 85\nConfidence: 0.9\n\nRefined Solution:\nWe use " ++
  "Legendre's formula and check candidates n=80 and n=85; the count of " ++
  "trailing zeros first reaches 20 at"

end Fixtures

/-- Lexicographic order on character lists (by code point). -/
def charListLt : List Char → List Char → Bool
  | [], [] => false
  | [], _ :: _ => true
  | _ :: _, [] => false
  | a :: as, b :: bs =>
    if a.toNat < b.toNat then true
    else if a.toNat = b.toNat then charListLt as bs
    else false

/-- Lexicographic order on strings (by code point), kernel-reducible. -/
def strLt (a b : String) : Bool := charListLt a.data b.data

/-- The judge choice exactly as claim C3 words it: among the judge
candidates, the maximum Judge-confidence wins, with ties broken by
participant id ascending. -/
def specC3Judge (cands : List (String × Rat)) : Option String :=
  match cands with
  | [] => none
  | c :: cs =>
    some (cs.foldl
      (fun best x =>
        if x.2 > best.2 || (x.2 == best.2 && strLt x.1 best.1) then x else best)
      c).1

/-- The refined-answer choice exactly as claim C6 words it: an explicit
`Refined Answer:`/`Final Answer:` label first, then the last plausible
number in the text as fallback. -/
def specC6Answer (response : String) : String :=
  let text := Py.stripChars response.data
  match ["Refined Answer:", "Final Answer:"].firstM (fun p =>
      Py.scanLines (Py.wsLabelTailCI p
        (Py.captureRest fun c => c = '\n' || c = '\r')) text) with
  | some cap => Refinement.stripConfSuffix (String.mk (Py.stripChars cap))
  | none =>
    match (Py.findallNums text).getLast? with
    | some tok => Py.strip (String.mk tok)
    | none => ""

namespace RoleAssignment

open Models

/-- Stable insertion step for a sort descending on the second component:
a new element goes in front of the first strictly smaller key, after all
earlier elements with an equal or larger key. -/
def insertDesc (x : String × Rat) : List (String × Rat) → List (String × Rat)
  | [] => [x]
  | y :: ys => if x.2 ≥ y.2 then x :: y :: ys else y :: insertDesc x ys

/-- `list.sort(key=lambda t: t[1], reverse=True)`: stable, descending on
the key.  Elements are inserted right-to-left so that earlier list
elements end up before later ones with an equal key. -/
def sortDesc : List (String × Rat) → List (String × Rat)
  | [] => []
  | x :: xs => insertDesc x (sortDesc xs)

/-- Stable insertion step for a sort ascending on the second component. -/
def insertAsc (x : String × Rat) : List (String × Rat) → List (String × Rat)
  | [] => [x]
  | y :: ys => if x.2 ≤ y.2 then x :: y :: ys else y :: insertAsc x ys

/-- `list.sort(key=lambda t: t[1])`: stable, ascending on the key. -/
def sortAsc : List (String × Rat) → List (String × Rat)
  | [] => []
  | x :: xs => insertAsc x (sortAsc xs)

/-- `preferences[name]` (keys are unique in a Python dict, so the
default is never reached on the lookups the code performs). -/
def lookupPref (preferences : List (String × RolePreference)) (name : String) :
    RolePreference :=
  (preferences.lookup name).getD ⟨[], [], "", ""⟩

/-- The judge-candidate list built by the first loop of
`RoleAssignment.assign_roles_deterministic`: entries whose preference
lists "Judge" with Judge confidence strictly above 0.7, in dict order,
paired with that confidence. -/
def judgeCandidates (preferences : List (String × RolePreference)) :
    List (String × Rat) :=
  (preferences.filter fun np =>
      np.2.preferred_roles.contains "Judge" && decide (np.2.confGet "Judge" > mkRat 7 10)).map
    fun np => (np.1, np.2.confGet "Judge")

/-- `RoleAssignment.assign_roles_deterministic` (src/role_assignment.py,
lines 85-127).  Returns the judge and the solver list; the `ValueError`
raised for fewer than four participants becomes `Except.error` with the
same message. -/
def assign_roles_deterministic (preferences : List (String × RolePreference)) :
    Except String (String × List String) :=
  let llm_names := preferences.map Prod.fst
  if llm_names.length < 4 then
    .error ("Need at least 4 LLMs, but only have " ++ toString llm_names.length)
  else
    let judge_candidates := judgeCandidates preferences
    if judge_candidates.length > 0 then
      let sorted_jc := sortDesc judge_candidates
      let judge := (sorted_jc.headD ("", mkRat 0 1)).1
      let solver_names := llm_names.filter fun n => n != judge
      let solver_names :=
        if solver_names.length > 3 then
          let solver_candidates := solver_names.map fun n =>
            (n, (lookupPref preferences n).confGet "Solver")
          ((sortDesc solver_candidates).take 3).map Prod.fst
        else solver_names
      let solver_names :=
        if solver_names.length > 3 then solver_names.take 3 else solver_names
      .ok (judge, solver_names)
    else
      let all_candidates := llm_names.map fun n =>
        (n, (lookupPref preferences n).confGet "Solver")
      let sorted := sortAsc all_candidates
      let judge := (sorted.headD ("", mkRat 0 1)).1
      let solver_names := sorted.tail.map Prod.fst
      let solver_names :=
        if solver_names.length > 3 then solver_names.take 3 else solver_names
      .ok (judge, solver_names)

/-- The earliest entry attaining the maximal key, i.e. what a stable
descending sort puts first. -/
def firstMaxBy : List (String × Rat) → Option (String × Rat)
  | [] => none
  | x :: xs =>
    match firstMaxBy xs with
    | none => some x
    | some m => if x.2 ≥ m.2 then some x else some m

end RoleAssignment

/-! ## Theorems -/

/-- Claim C2: the pipeline is claimed always to complete and return a
DebateResult.  In the code, `run_debate` invokes `assign_roles` on the
role assigner, but the `RoleAssignment` class defines no such method
(only `assign_roles_deterministic`); moreover src/judgment.py imports a
`Judgment` class that src/models.py does not define, and
`_parse_solution` passes a `timestamp` keyword that the `Solution`
dataclass does not accept — so `run_debate` raises instead of
completing. -/
theorem run_debate_calls_missing_method :
    Pipeline.runDebateRoleMethod ∉ Pipeline.roleAssignmentMethods ∧
    "Judgment" ∈ Pipeline.judgmentModelsImports ∧
    "Judgment" ∉ Pipeline.modelsClassNames ∧
    "timestamp" ∈ SolutionGeneration.parseSolutionCallKeywords ∧
    "timestamp" ∉ Models.Solution.initFieldNames := by
  refine ⟨?_, ?_, ?_, ?_, ?_⟩ <;> decide

/-- Claim C8: with fewer than four participants, role assignment raises
a configuration error (`ValueError`) rather than returning a
partition. -/
theorem assign_roles_too_few_error (prefs : List (String × Models.RolePreference))
    (h : prefs.length < 4) :
    RoleAssignment.assign_roles_deterministic prefs =
      .error ("Need at least 4 LLMs, but only have " ++ toString prefs.length) := by
  unfold RoleAssignment.assign_roles_deterministic
  simp only [List.length_map]
  rw [if_pos h]

/-- Witness for `assign_roles_too_few_error` at a concrete three-entry
preference map. -/
theorem assign_roles_too_few_witness :
    Fixtures.smallPrefs.length < 4 ∧
    RoleAssignment.assign_roles_deterministic Fixtures.smallPrefs =
      .error "Need at least 4 LLMs, but only have 3" := by
  refine ⟨by decide, ?_⟩
  rw [assign_roles_too_few_error Fixtures.smallPrefs (by decide)]
  rfl

/-- Claim C4: the solution-stage parser is claimed never to raise.  In
fact `_parse_solution` raises `TypeError` on every input, because its
final constructor call passes a `timestamp` keyword argument that the
`models.Solution` dataclass does not declare. -/
theorem parse_solution_always_raises (response solver_id : String) :
    SolutionGeneration.parse_solution response solver_id =
      .error "TypeError: Solution.__init__() got an unexpected keyword argument 'timestamp'" := by
  unfold SolutionGeneration.parse_solution
  rw [if_neg]
  decide

/-- Claim C7: parsing `{"winner":"gemini-3","confidence":"85%"}` is
claimed to yield confidence 0.85 by percentage coercion, without
raising.  The code has no percentage coercion: the JSON parse succeeds
and leaves `confidence` as the string "85%", and the validation
`if confidence <= 0:` then raises `TypeError` (it sits outside the
`try` block). -/
theorem judgment_percent_confidence_raises :
    Judgment.json_loads Fixtures.percentConfidenceBody =
      some (.obj [("winner", .str "gemini-3"), ("confidence", .str "85%")]) ∧
    Judgment.parse_judgment Fixtures.percentConfidenceBody =
      .error "TypeError: '<=' not supported between instances of 'str' and 'int'" :=
  ⟨rfl, rfl⟩

/-- Claim C1 counterexample: a parsed winner outside the solver set
`{"gemini-2","gemini-3","gemini-4"}` is returned as the winner, with no
warning of any kind (the record has no warning field), and a response
with no parsable winner gets the fabricated default "claude" — the
exact opposites of the claimed soft-failure behaviour. -/
theorem judgment_invalid_winner_passthrough :
    (Judgment.parse_judgment Fixtures.invalidWinnerBody).map
        (fun j => (j.winner, j.confidence)) =
      .ok (.str "gemini-5", .num (mkRat 9 10)) ∧
    "gemini-5" ∉ ["gemini-2", "gemini-3", "gemini-4"] ∧
    (Judgment.parse_judgment "no winner here").map
        (fun j => (j.winner, j.confidence)) =
      .ok (.str "claude", .num (mkRat 4 5)) :=
  ⟨by rfl, by decide, by rfl⟩

/-- The `claudeUnless` fallback always yields a truthy winner. -/
theorem claudeUnless_truthy (q : Judgment.Parsed) :
    (Judgment.claudeUnless q).winner.truthy = true := by
  unfold Judgment.claudeUnless
  split
  · assumption
  · rfl

/-- After the "Ensure winner is not empty" pass, the winner is truthy. -/
theorem fixWinner_truthy (p : Judgment.Parsed) :
    (Judgment.fixWinner p).winner.truthy = true := by
  unfold Judgment.fixWinner
  split
  · assumption
  · exact claudeUnless_truthy _

/-- The confidence/reasoning fixups do not change the winner. -/
theorem finishJudgment_winner (p : Judgment.Parsed) (nonpos : Bool) :
    (Judgment.finishJudgment p nonpos).winner = p.winner := by
  simp only [Judgment.finishJudgment]
  split <;> split <;> rfl

/-- Claim C1, amended: `_parse_judgment` performs no validation of the
winner against any solver set — any truthy parsed winner is returned
unchanged (so "gemini-5" passes through) — and when no winner can be
extracted it substitutes the hardcoded default "claude" with confidence
0.8; the returned winner is always truthy, never an absent value, and
the record has no warning field at all. -/
theorem judgment_lenient_winner_behavior :
    (∀ response j, Judgment.parse_judgment response = .ok j →
       j.winner.truthy = true) ∧
    (Judgment.parse_judgment Fixtures.invalidWinnerBody).map
        (fun j => j.winner) = .ok (.str "gemini-5") ∧
    (Judgment.parse_judgment "no winner here").map
        (fun j => (j.winner, j.confidence, j.ranking)) =
      .ok (.str "claude", .num (mkRat 4 5),
        .obj [("claude", .num 1), ("gemini", .num 2), ("grok", .num 3)]) := by
  refine ⟨?_, by rfl, by rfl⟩
  intro response j h
  simp only [Judgment.parse_judgment] at h
  cases hc : Judgment.confNonPos
      (Judgment.fixWinner (Judgment.parsedOf (Py.strip response))).confidence with
  | none => rw [hc] at h; exact absurd h (by simp)
  | some nonpos =>
    rw [hc] at h
    simp only [Except.ok.injEq] at h
    rw [← h, finishJudgment_winner]
    exact fixWinner_truthy _

/-- Witness for `judgment_lenient_winner_behavior` at the concrete
response "no winner here", whose parse yields the default judgment. -/
theorem judgment_lenient_winner_witness :
    (Judgment.JVal.str "claude").truthy = true :=
  judgment_lenient_winner_behavior.1 "no winner here"
    ⟨.str "claude", .num (mkRat 4 5),
     .str "Default judgment: Claude provided the most logical solution.",
     .obj [("Logical Soundness", .num (mkRat 8 1)), ("Completeness", .num (mkRat 15 2)),
           ("Error Handling", .num (mkRat 8 1)), ("Peer Review Integration", .num (mkRat 7 1))],
     .obj [("claude", .num 1), ("gemini", .num 2), ("grok", .num 3)]⟩ (by rfl)

/-- In mock mode, `call_llm` returns the mock response. -/
theorem use_mock_mode_of_ne_false (env : Option String)
    (h : env.map (fun s => String.mk (Py.lowerStr s.data)) ≠ some "false") :
    LLMClient.use_mock_mode env = true := by
  cases env with
  | none => rfl
  | some s =>
    unfold LLMClient.use_mock_mode
    simp only [Option.getD_some, Option.map_some] at *
    have hne : String.mk (Py.lowerStr s.data) ≠ "false" := by
      intro hh
      exact h (by simp [hh])
    rw [if_pos]
    simpa using hne

/-- Claim C10: whenever the `USE_MOCK_MODE` value is anything but the
string "false" (case-insensitively), including unset, `call_llm`
returns `_get_mock_response(model_name, prompt)` — a pure function of
the model name and prompt — so no real provider is ever consulted (the
result does not depend on the `real` oracle) and two calls with the
same arguments return identical text. -/
theorem call_llm_mock_mode_deterministic (env : Option String)
    (model_name prompt : String)
    (real : String → String → Except String String)
    (h : env.map (fun s => String.mk (Py.lowerStr s.data)) ≠ some "false") :
    LLMClient.call_llm env model_name prompt real =
      LLMClient.get_mock_response model_name prompt := by
  unfold LLMClient.call_llm
  rw [use_mock_mode_of_ne_false env h]
  rfl

/-- Witness for `call_llm_mock_mode_deterministic`: with the variable
unset, a "gemini-2" call never reaches the failing real provider. -/
theorem call_llm_mock_mode_witness :
    LLMClient.call_llm none "gemini-2" "hello" (fun _ _ => .error "network down") =
      LLMClient.get_mock_response "gemini-2" "hello" :=
  call_llm_mock_mode_deterministic none "gemini-2" "hello" _ (by decide)

/-- Claim C9 counterexample: the parsed solution confidence is not
clamped to [0, 1] — the text "Confidence: 2.5" yields confidence 5/2. -/
theorem solution_confidence_unclamped :
    (SolutionGeneration.parseSolutionFields "Confidence: 2.5" "gemini-2").confidence =
      mkRat 5 2 ∧
    ¬ ((SolutionGeneration.parseSolutionFields "Confidence: 2.5" "gemini-2").confidence ≤ 1) :=
  ⟨by rfl, by rw [(by rfl : (SolutionGeneration.parseSolutionFields
      "Confidence: 2.5" "gemini-2").confidence = mkRat 5 2)]; decide⟩

/-- Claim C9, amended: every field record computed by the
solution-stage parser has a non-empty `reasoning_steps` list (the whole
raw response becomes the single step when no steps are recoverable),
and `confidence` is 0.5 both when the `Confidence:` pattern does not
match and when its capture is not a parsable float; a parsable capture
is used as-is, without clamping to [0, 1]. -/
theorem solution_fields_invariants (response solver_id : String) :
    (SolutionGeneration.parseSolutionFields response solver_id).reasoning_steps ≠ [] ∧
    (Py.scanAt (Py.labelTailCI "Confidence:" Py.captureDigitsDots)
        (Py.stripChars response.data) = none →
      (SolutionGeneration.parseSolutionFields response solver_id).confidence = mkRat 1 2) ∧
    (∀ cap, Py.scanAt (Py.labelTailCI "Confidence:" Py.captureDigitsDots)
        (Py.stripChars response.data) = some cap →
      (SolutionGeneration.parseSolutionFields response solver_id).confidence =
        (Py.pyFloat? (String.mk cap)).getD (mkRat 1 2)) := by
  refine ⟨?_, ?_, ?_⟩
  · simp only [SolutionGeneration.parseSolutionFields]
    split
    · simp
    · assumption
  · intro hnone
    simp only [SolutionGeneration.parseSolutionFields, SolutionGeneration.confidenceOf]
    rw [hnone]
  · intro cap hcap
    simp only [SolutionGeneration.parseSolutionFields, SolutionGeneration.confidenceOf]
    rw [hcap]

/-- Witness for `solution_fields_invariants` at the empty response and
at an unparsable confidence capture. -/
theorem solution_fields_witness :
    (SolutionGeneration.parseSolutionFields "" "gemini-2").reasoning_steps ≠ [] ∧
    (SolutionGeneration.parseSolutionFields "" "gemini-2").confidence = mkRat 1 2 ∧
    (SolutionGeneration.parseSolutionFields "Confidence: 1.2.3" "gemini-2").confidence =
      mkRat 1 2 := by
  refine ⟨(solution_fields_invariants "" "gemini-2").1,
    (solution_fields_invariants "" "gemini-2").2.1 (by rfl), ?_⟩
  rw [(solution_fields_invariants "Confidence: 1.2.3" "gemini-2").2.2
    "1.2.3".data (by rfl)]
  rfl

/-- Claim C6 counterexample: the claim describes the fallback order as
label first, then last plausible number — but the code consults
`utils.extract_final_answer` (which also accepts `Solution:` and
`Result:` labels) in between.  On "Result: 99\nthen comes 42" the code
answers "99" where the claim's two layers would answer "42". -/
theorem refinement_layering_counterexample :
    (Refinement.parse_refinement Fixtures.resultLabelText "gemini-2").refined_answer =
      "99" ∧
    specC6Answer Fixtures.resultLabelText = "42" ∧
    ("99" : String) ≠ "42" :=
  ⟨by rfl, by rfl, by decide⟩

/-- Claim C6, amended: the refined answer is chosen by the layered
order — an explicit line-anchored `Refined Answer:`/`Final Answer:`/
`Answer:` label first (so a labelled first line survives truncation of
the rest), then `utils.extract_final_answer` (unanchored
Final Answer/Answer/Solution/Result labels), then the last plausible
number in the text; confidence defaults to 0.8 when the `Confidence:`
pattern is absent, and `changes_made` always contains at least one
`CritiqueResponse`, synthesized when the "Changes Made" section yields
none. -/
theorem refinement_layering_amended (response solver_id : String)
    (text : List Char) (htext : text = Py.stripChars response.data) :
    (Refinement.parse_refinement response solver_id).changes_made ≠ [] ∧
    (Py.scanLines (Py.wsLabelTailCI "Confidence:" Py.captureFloat) text = none →
      (Refinement.parse_refinement response solver_id).confidence = mkRat 4 5) ∧
    (∀ s, Refinement.layerAnswer text = some s →
      Refinement.stripConfSuffix s ≠ "" →
      (Refinement.parse_refinement response solver_id).refined_answer =
        Refinement.stripConfSuffix s) ∧
    (Refinement.layerAnswer text = none →
      Py.strip (Utils.extract_final_answer (String.mk text)) ≠ "" →
      (Refinement.parse_refinement response solver_id).refined_answer =
        Py.strip (Utils.extract_final_answer (String.mk text))) ∧
    (Refinement.layerAnswer text = none →
      Utils.extract_final_answer (String.mk text) = "" →
      ∀ tok, (Py.findallNums text).getLast? = some tok →
      (Refinement.parse_refinement response solver_id).refined_answer =
        Py.strip (String.mk tok)) := by
  subst htext
  refine ⟨?_, ?_, ?_, ?_, ?_⟩
  · simp only [Refinement.parse_refinement]
    split
    · simp
    · assumption
  · intro hnone
    simp only [Refinement.parse_refinement, Refinement.confidenceOf]
    rw [hnone]
  · intro s hs hne
    simp only [Refinement.parse_refinement, hs, Option.map_some]
    simp [hne]
  · intro hnone hsfb
    have hfb : Utils.extract_final_answer (String.mk (Py.stripChars response.data)) ≠ "" := by
      intro h0
      rw [h0] at hsfb
      exact hsfb rfl
    simp only [Refinement.parse_refinement, hnone, Option.map_none, Option.getD_none]
    simp [hfb, hsfb]
  · intro hnone hfb tok htok
    simp only [Refinement.parse_refinement, hnone, Option.map_none, Option.getD_none, hfb,
      htok]
    simp

/-- Witness for `refinement_layering_amended` at the truncation
scenario of the spec: "Refined Answer: 85" on the first line wins even
though the response is cut off before any "Changes Made" section. -/
theorem refinement_layering_witness :
    (Refinement.parse_refinement Fixtures.truncatedRefinement "gemini-2").refined_answer =
      "85" ∧
    (Refinement.parse_refinement Fixtures.truncatedRefinement "gemini-2").changes_made ≠
      [] := by
  have h := refinement_layering_amended Fixtures.truncatedRefinement "gemini-2"
    (Py.stripChars Fixtures.truncatedRefinement.data) rfl
  refine ⟨?_, h.1⟩
  have h85 := h.2.2.1 "85" (by rfl) (by decide)
  rw [(by rfl : Refinement.stripConfSuffix "85" = "85")] at h85
  exact h85

namespace RoleAssignment

/-- Inserting is a permutation of consing. -/
theorem insertDesc_perm (x : String × Rat) (l : List (String × Rat)) :
    List.Perm (insertDesc x l) (x :: l) := by
  induction l with
  | nil => rfl
  | cons y ys ih =>
    unfold insertDesc
    split
    · rfl
    · exact ((ih.cons y).trans (List.Perm.swap x y ys))

/-- The stable descending sort permutes its input. -/
theorem sortDesc_perm (l : List (String × Rat)) : List.Perm (sortDesc l) l := by
  induction l with
  | nil => rfl
  | cons x xs ih => exact (insertDesc_perm x (sortDesc xs)).trans (ih.cons x)

theorem insertAsc_perm (x : String × Rat) (l : List (String × Rat)) :
    List.Perm (insertAsc x l) (x :: l) := by
  induction l with
  | nil => rfl
  | cons y ys ih =>
    unfold insertAsc
    split
    · rfl
    · exact ((ih.cons y).trans (List.Perm.swap x y ys))

/-- The stable ascending sort permutes its input. -/
theorem sortAsc_perm (l : List (String × Rat)) : List.Perm (sortAsc l) l := by
  induction l with
  | nil => rfl
  | cons x xs ih => exact (insertAsc_perm x (sortAsc xs)).trans (ih.cons x)

/-- The head of the stable descending sort is the earliest entry with
the maximal key: stability means the first among tied keys wins. -/
theorem sortDesc_head (l : List (String × Rat)) :
    (sortDesc l).head? = firstMaxBy l := by
  induction l with
  | nil => rfl
  | cons x xs ih =>
    show (insertDesc x (sortDesc xs)).head? = _
    cases h : sortDesc xs with
    | nil =>
      have : xs = [] := by
        have := (sortDesc_perm xs).length_eq
        rw [h] at this
        exact List.length_eq_zero.mp this.symm
      subst this
      rfl
    | cons y ys =>
      rw [h] at ih
      unfold insertDesc
      unfold firstMaxBy
      rw [← ih]
      split
      · rename_i h1
        simp only [List.head?_cons]
        rw [if_pos h1]
      · rename_i h1
        simp only [List.head?_cons]
        rw [if_neg h1]

/-- `firstMaxBy` returns an element of the list. -/
theorem firstMaxBy_mem {l : List (String × Rat)} {c : String × Rat}
    (h : firstMaxBy l = some c) : c ∈ l := by
  induction l with
  | nil => simp [firstMaxBy] at h
  | cons x xs ih =>
    unfold firstMaxBy at h
    cases hx : firstMaxBy xs with
    | none => rw [hx] at h; simp at h; simp [h]
    | some m =>
      rw [hx] at h
      simp only at h
      split at h
      · simp at h; simp [h]
      · simp at h
        subst h
        exact List.mem_cons_of_mem _ (ih hx)

/-- A nonempty list has a first maximal entry. -/
theorem firstMaxBy_isSome {l : List (String × Rat)} (h : l ≠ []) :
    ∃ c, firstMaxBy l = some c := by
  cases l with
  | nil => exact absurd rfl h
  | cons x xs =>
    unfold firstMaxBy
    cases firstMaxBy xs with
    | none => exact ⟨x, rfl⟩
    | some m =>
      simp only
      split
      · exact ⟨x, rfl⟩
      · exact ⟨m, rfl⟩

/-- Entries of `judgeCandidates` name participants of the map. -/
theorem judgeCandidates_fst_mem {prefs : List (String × Models.RolePreference)}
    {c : String × Rat} (h : c ∈ judgeCandidates prefs) :
    c.1 ∈ prefs.map Prod.fst := by
  unfold judgeCandidates at h
  obtain ⟨np, hnp, rfl⟩ := List.mem_map.mp h
  exact List.mem_map.mpr ⟨np, (List.mem_filter.mp hnp).1, rfl⟩

/-- Filtering one member out of a duplicate-free list shortens it by
exactly one. -/
theorem filter_ne_length {l : List String} {a : String}
    (hnd : l.Nodup) (ha : a ∈ l) :
    (l.filter fun n => n != a).length = l.length - 1 := by
  induction l with
  | nil => cases ha
  | cons x xs ih =>
    rcases List.mem_cons.mp ha with rfl | hmem
    · have hx : xs.filter (fun n => n != a) = xs := by
        apply List.filter_eq_self.mpr
        intro b hb
        have hba : b ≠ a := fun hbx => (List.nodup_cons.mp hnd).1 (hbx ▸ hb)
        simpa using hba
      simp [List.filter_cons, hx]
    · have hxa : x ≠ a := fun hxa => (List.nodup_cons.mp hnd).1 (hxa ▸ hmem)
      have := ih (List.nodup_cons.mp hnd).2 hmem
      have hlen : 0 < xs.length := List.length_pos.mpr (List.ne_nil_of_mem hmem)
      simp only [List.filter_cons]
      rw [if_pos (by simpa using hxa)]
      simp only [List.length_cons, this]
      omega

end RoleAssignment

/-- Claim C3 counterexample: with two judge candidates tied at
confidence 9/10, the dict insertion order "gemini-b" before "gemini-a"
makes "gemini-b" the judge — the tie is broken by insertion order, not
by participant id ascending (which would pick "gemini-a"). -/
theorem assign_roles_tiebreak_counterexample :
    RoleAssignment.judgeCandidates Fixtures.tiedPrefs =
      [("gemini-b", mkRat 9 10), ("gemini-a", mkRat 9 10)] ∧
    specC3Judge (RoleAssignment.judgeCandidates Fixtures.tiedPrefs) =
      some "gemini-a" ∧
    RoleAssignment.assign_roles_deterministic Fixtures.tiedPrefs =
      .ok ("gemini-b", ["gemini-a", "gemini-c", "gemini-d"]) ∧
    ("gemini-a" : String) ≠ "gemini-b" :=
  ⟨by rfl, by rfl, by rfl, by decide⟩

/-- Claim C3, amended: for every preference map with at least four
participants (distinct keys, as in a Python dict),
`assign_roles_deterministic` returns exactly one judge and exactly
three distinct solvers with the judge not among them, all drawn from
the participant pool, and the result is a deterministic function of the
insertion-ordered map; when judge candidates exist, the judge is the
earliest candidate attaining the maximal Judge confidence — ties are
broken by insertion order of the map, not by participant id
ascending. -/
theorem assign_roles_partition_and_tiebreak
    (prefs : List (String × Models.RolePreference))
    (h4 : 4 ≤ prefs.length) (hnd : (prefs.map Prod.fst).Nodup) :
    ∃ judge solvers,
      RoleAssignment.assign_roles_deterministic prefs = .ok (judge, solvers) ∧
      solvers.length = 3 ∧
      judge ∉ solvers ∧
      solvers.Nodup ∧
      judge ∈ prefs.map Prod.fst ∧
      (∀ s ∈ solvers, s ∈ prefs.map Prod.fst) ∧
      (RoleAssignment.judgeCandidates prefs ≠ [] →
        ∃ c, RoleAssignment.firstMaxBy (RoleAssignment.judgeCandidates prefs) =
            some c ∧ judge = c.1) := by
  have hlen : ¬ (prefs.map Prod.fst).length < 4 := by
    simp only [List.length_map]
    omega
  by_cases hjc : (RoleAssignment.judgeCandidates prefs).length > 0
  · -- at least one judge candidate
    have hjcne : RoleAssignment.judgeCandidates prefs ≠ [] := by
      intro h0
      rw [h0] at hjc
      simp at hjc
    obtain ⟨c, hc⟩ := RoleAssignment.firstMaxBy_isSome hjcne
    obtain ⟨rest, hrest⟩ : ∃ rest,
        RoleAssignment.sortDesc (RoleAssignment.judgeCandidates prefs) = c :: rest := by
      have hh : (RoleAssignment.sortDesc (RoleAssignment.judgeCandidates prefs)).head? =
          some c := by
        rw [RoleAssignment.sortDesc_head]
        exact hc
      cases hsd : RoleAssignment.sortDesc (RoleAssignment.judgeCandidates prefs) with
      | nil => rw [hsd] at hh; cases hh
      | cons a t =>
        rw [hsd] at hh
        simp only [List.head?_cons, Option.some.injEq] at hh
        exact ⟨t, by rw [hh]⟩
    have hjmem : c.1 ∈ prefs.map Prod.fst :=
      RoleAssignment.judgeCandidates_fst_mem (RoleAssignment.firstMaxBy_mem hc)
    have hsn0len : ((prefs.map Prod.fst).filter fun n => n != c.1).length =
        prefs.length - 1 := by
      rw [RoleAssignment.filter_ne_length hnd hjmem, List.length_map]
    have hsn0mem : ∀ s ∈ (prefs.map Prod.fst).filter fun n => n != c.1,
        s ∈ prefs.map Prod.fst ∧ s ≠ c.1 := by
      intro s hs
      refine ⟨(List.mem_filter.mp hs).1, ?_⟩
      have := (List.mem_filter.mp hs).2
      simpa using this
    have hsn0nd : ((prefs.map Prod.fst).filter fun n => n != c.1).Nodup :=
      hnd.filter _
    simp only [RoleAssignment.assign_roles_deterministic]
    rw [if_neg hlen, if_pos hjc, hrest]
    simp only [List.headD_cons]
    by_cases hgt : ((prefs.map Prod.fst).filter fun n => n != c.1).length > 3
    · rw [if_pos hgt]
      set sc := ((prefs.map Prod.fst).filter fun n => n != c.1).map
        (fun n => (n, (RoleAssignment.lookupPref prefs n).confGet "Solver")) with hsc
      have hscperm := RoleAssignment.sortDesc_perm sc
      have hscfst : sc.map Prod.fst =
          (prefs.map Prod.fst).filter fun n => n != c.1 := by
        rw [hsc, List.map_map]
        have hcomp : (Prod.fst ∘ fun n : String =>
            (n, (RoleAssignment.lookupPref prefs n).confGet "Solver")) =
            fun n => n := rfl
        rw [hcomp]
        simp
      have hsclen : (RoleAssignment.sortDesc sc).length = sc.length := hscperm.length_eq
      have hlen3 : (((RoleAssignment.sortDesc sc).take 3).map Prod.fst).length = 3 := by
        rw [List.length_map, List.length_take, hsclen, hsc, List.length_map]
        omega
      rw [if_neg (by rw [hlen3]; omega)]
      refine ⟨c.1, _, rfl, hlen3, ?_, ?_, hjmem, ?_, fun _ => ⟨c, hc, rfl⟩⟩
      · intro hmem
        obtain ⟨p, hp, hpfst⟩ := List.mem_map.mp hmem
        have hpin : p ∈ RoleAssignment.sortDesc sc := List.take_subset 3 _ hp
        have : p.1 ∈ sc.map Prod.fst :=
          List.mem_map.mpr ⟨p, hscperm.mem_iff.mp hpin, rfl⟩
        rw [hscfst] at this
        exact (hsn0mem _ this).2 (by rw [hpfst])
      · have hnd2 : ((RoleAssignment.sortDesc sc).map Prod.fst).Nodup := by
          have := (hscperm.map Prod.fst).nodup_iff
          rw [hscfst] at this
          exact this.mpr hsn0nd
        rw [List.map_take]
        exact List.Nodup.sublist (List.take_sublist 3 _) hnd2
      · intro s hs
        obtain ⟨p, hp, hpfst⟩ := List.mem_map.mp hs
        have hpin : p ∈ RoleAssignment.sortDesc sc := List.take_subset 3 _ hp
        have : p.1 ∈ sc.map Prod.fst :=
          List.mem_map.mpr ⟨p, hscperm.mem_iff.mp hpin, rfl⟩
        rw [hscfst] at this
        exact hpfst ▸ (hsn0mem _ this).1
    · rw [if_neg hgt]
      have hexact : ((prefs.map Prod.fst).filter fun n => n != c.1).length = 3 := by
        omega
      rw [if_neg (by rw [hexact]; omega)]
      refine ⟨c.1, _, rfl, hexact, ?_, hsn0nd, hjmem, ?_, fun _ => ⟨c, hc, rfl⟩⟩
      · intro hmem
        exact (hsn0mem _ hmem).2 rfl
      · intro s hs
        exact (hsn0mem _ hs).1
  · -- no judge candidate: weakest solver becomes judge by elimination
    have hjcnil : RoleAssignment.judgeCandidates prefs = [] :=
      List.length_eq_zero.mp (by omega)
    simp only [RoleAssignment.assign_roles_deterministic]
    rw [if_neg hlen, if_neg hjc]
    set allc := (prefs.map Prod.fst).map
      (fun n => (n, (RoleAssignment.lookupPref prefs n).confGet "Solver")) with hallc
    have hperm := RoleAssignment.sortAsc_perm allc
    have hallfst : allc.map Prod.fst = prefs.map Prod.fst := by
      rw [hallc, List.map_map]
      have hcomp : (Prod.fst ∘ fun n : String =>
          (n, (RoleAssignment.lookupPref prefs n).confGet "Solver")) =
          fun n => n := rfl
      rw [hcomp]
      simp
    have hlenall : (RoleAssignment.sortAsc allc).length = prefs.length := by
      rw [hperm.length_eq, hallc, List.length_map, List.length_map]
    cases hs : RoleAssignment.sortAsc allc with
    | nil =>
      rw [hs] at hlenall
      simp at hlenall
      omega
    | cons hd tl =>
      simp only [List.tail_cons, List.headD_cons]
      have hfstnd : ((RoleAssignment.sortAsc allc).map Prod.fst).Nodup := by
        have := (hperm.map Prod.fst).nodup_iff
        rw [hallfst] at this
        exact this.mpr hnd
      rw [hs] at hfstnd
      simp only [List.map_cons, List.nodup_cons] at hfstnd
      have htllen : tl.length = prefs.length - 1 := by
        rw [hs] at hlenall
        simp only [List.length_cons] at hlenall
        omega
      have htlsub : ∀ s ∈ tl.map Prod.fst, s ∈ prefs.map Prod.fst := by
        intro s hsmem
        obtain ⟨p, hp, hpfst⟩ := List.mem_map.mp hsmem
        have hpall : p ∈ allc := hperm.mem_iff.mp (by rw [hs]; exact List.mem_cons_of_mem _ hp)
        rw [← hallfst]
        exact List.mem_map.mpr ⟨p, hpall, hpfst⟩
      have hjudge : hd.1 ∈ prefs.map Prod.fst := by
        have hpall : hd ∈ allc := hperm.mem_iff.mp (by rw [hs]; exact List.mem_cons_self _ _)
        rw [← hallfst]
        exact List.mem_map.mpr ⟨hd, hpall, rfl⟩
      refine ⟨hd.1, _, rfl, ?_, ?_, ?_, hjudge, ?_, fun h => absurd hjcnil h⟩
      · split
        · rename_i hgt
          rw [List.length_take]
          omega
        · rename_i hgt
          rw [List.length_map] at *
          omega
      · intro hmem
        have : hd.1 ∈ tl.map Prod.fst := by
          revert hmem
          split
          · exact fun hmem => List.take_subset _ _ hmem
          · exact fun hmem => hmem
        exact hfstnd.1 this
      · split
        · exact List.Nodup.sublist (List.take_sublist 3 _) hfstnd.2
        · exact hfstnd.2
      · intro s hsmem
        have : s ∈ tl.map Prod.fst := by
          revert hsmem
          split
          · exact fun hsmem => List.take_subset _ _ hsmem
          · exact fun hsmem => hsmem
        exact htlsub s this

/-- Witness for `assign_roles_partition_and_tiebreak` at the concrete
four-participant map. -/
theorem assign_roles_partition_witness :
    4 ≤ Fixtures.tiedPrefs.length ∧
    (Fixtures.tiedPrefs.map Prod.fst).Nodup ∧
    ∃ judge solvers,
      RoleAssignment.assign_roles_deterministic Fixtures.tiedPrefs =
        .ok (judge, solvers) ∧
      solvers.length = 3 ∧ judge ∉ solvers := by
  refine ⟨by decide, by decide, ?_⟩
  obtain ⟨j, s, heq, hlen, hnot, -⟩ :=
    assign_roles_partition_and_tiebreak Fixtures.tiedPrefs (by decide) (by decide)
  exact ⟨j, s, heq, hlen, hnot⟩

namespace PeerReview

open Models

/-- `appendReview` leaves the key sequence unchanged. -/
theorem appendReview_keys {m : List (String × List PeerReview)} {k : String}
    {v : PeerReview} {m2 : List (String × List PeerReview)}
    (h : appendReview m k v = some m2) : m2.map Prod.fst = m.map Prod.fst := by
  unfold appendReview at h
  split at h
  · cases h
    rw [List.map_map]
    apply List.map_congr_left
    intro kv _
    simp only [Function.comp]
    split <;> rfl
  · cases h

/-- One reviewer pass appends, under each key, one generated review per
solutions entry at that key whose key differs from the reviewer. -/
theorem reviewPass_eq (gen : String → Solution → PeerReview) (r : String)
    (sols : List (String × Solution)) (m : List (String × List PeerReview))
    (hin : ∀ p ∈ sols, p.1 ∈ m.map Prod.fst) :
    reviewPass gen r sols m = some (m.map fun kv =>
      (kv.1, kv.2 ++ (sols.filter fun p => p.1 == kv.1 && r != p.1).map
        fun p => gen r p.2)) := by
  induction sols generalizing m with
  | nil =>
    simp only [reviewPass, List.filter_nil, List.map_nil, List.append_nil]
    have hid : (fun kv : String × List PeerReview => (kv.1, kv.2)) = id := rfl
    rw [hid, List.map_id]
  | cons ps rest ih =>
    obtain ⟨sid, sol⟩ := ps
    simp only [reviewPass]
    split
    · rename_i hne
      have hkey : sid ∈ m.map Prod.fst := hin (sid, sol) (by simp)
      have happ : appendReview m sid (gen r sol) = some (m.map fun kv =>
          if kv.1 = sid then (kv.1, kv.2 ++ [gen r sol]) else kv) := by
        unfold appendReview
        rw [if_pos (by simpa using hkey)]
      simp only [happ]
      have hin2 : ∀ p ∈ rest, p.1 ∈ (m.map fun kv =>
          if kv.1 = sid then (kv.1, kv.2 ++ [gen r sol]) else kv).map Prod.fst := by
        intro p hp
        have hkeys : (m.map fun kv =>
            if kv.1 = sid then (kv.1, kv.2 ++ [gen r sol]) else kv).map Prod.fst =
            m.map Prod.fst := by
          rw [List.map_map]
          apply List.map_congr_left
          intro kv _
          simp only [Function.comp]
          split <;> rfl
        rw [hkeys]
        exact hin p (List.mem_cons_of_mem _ hp)
      rw [ih _ hin2, List.map_map]
      congr 1
      apply List.map_congr_left
      intro kv _
      simp only [Function.comp]
      by_cases hk : kv.1 = sid
      · rw [if_pos hk]
        simp only [List.filter_cons]
        have hcond : (sid == kv.1 && r != sid) = true := by
          simp only [Bool.and_eq_true, beq_iff_eq, bne_iff_ne]
          exact ⟨hk.symm, hne⟩
        rw [if_pos hcond]
        simp [List.append_assoc]
      · rw [if_neg hk]
        simp only [List.filter_cons]
        have hcond : ¬ ((sid == kv.1 && r != sid) = true) := by
          simp only [Bool.and_eq_true, beq_iff_eq, bne_iff_ne]
          rintro ⟨ha, -⟩
          exact hk ha.symm
        rw [if_neg hcond]
    · rename_i hne
      have hr : r = sid := by
        by_contra hcon
        exact hne hcon
      rw [ih _ fun p hp => hin p (List.mem_cons_of_mem _ hp)]
      congr 1
      apply List.map_congr_left
      intro kv _
      simp only [List.filter_cons]
      have hcond : ∀ kk : String, ¬ ((sid == kk && r != sid) = true) := by
        intro kk
        simp only [Bool.and_eq_true, beq_iff_eq, bne_iff_ne]
        rintro ⟨-, hb⟩
        exact hb hr
      rw [if_neg (hcond kv.1)]

/-- Mapping that preserves the first components leaves the key
sequence unchanged. -/
theorem map_keyed_keys (m : List (String × List PeerReview))
    (f : String → List PeerReview → List PeerReview) :
    (m.map fun kv => (kv.1, f kv.1 kv.2)).map Prod.fst = m.map Prod.fst := by
  rw [List.map_map]
  apply List.map_congr_left
  intro kv _
  rfl

/-- The whole reviewer loop: under each key, the generated reviews of
all reviewers in order, one per non-self solutions entry at that key. -/
theorem reviewLoop_eq (gen : String → Solution → PeerReview)
    (sols : List (String × Solution)) (rs : List String)
    (m : List (String × List PeerReview))
    (hin : ∀ p ∈ sols, p.1 ∈ m.map Prod.fst) :
    reviewLoop gen sols rs m = some (m.map fun kv =>
      (kv.1, kv.2 ++ (rs.map fun r =>
        (sols.filter fun p => p.1 == kv.1 && r != p.1).map
          fun p => gen r p.2).join)) := by
  induction rs generalizing m with
  | nil =>
    simp only [reviewLoop, List.map_nil, List.join_nil, List.append_nil]
    have hid : (fun kv : String × List PeerReview => (kv.1, kv.2)) = id := rfl
    rw [hid, List.map_id]
  | cons r rs' ih =>
    simp only [reviewLoop]
    rw [reviewPass_eq gen r sols m hin]
    have hin2 : ∀ p ∈ sols, p.1 ∈ ((m.map fun kv =>
        (kv.1, kv.2 ++ (sols.filter fun p => p.1 == kv.1 && r != p.1).map
          fun p => gen r p.2)).map Prod.fst) := by
      intro p hp
      have hkk : ((m.map fun kv =>
          (kv.1, kv.2 ++ (sols.filter fun p => p.1 == kv.1 && r != p.1).map
            fun p => gen r p.2)).map Prod.fst) = m.map Prod.fst := by
        rw [List.map_map]
        apply List.map_congr_left
        intro kv _
        rfl
      rw [hkk]
      exact hin p hp
    simp only []
    rw [ih _ hin2, List.map_map]
    congr 1
    apply List.map_congr_left
    intro kv _
    simp only [Function.comp, List.map_cons, List.join_cons, List.append_assoc]

/-- `conduct_peer_review` in closed form. -/
theorem conduct_peer_review_eq (gen : String → Solution → PeerReview)
    (solvers : List String) (sols : List (String × Solution))
    (hin : ∀ p ∈ sols, p.1 ∈ solvers) :
    conduct_peer_review gen solvers sols = some (solvers.map fun s =>
      (s, (solvers.map fun r =>
        (sols.filter fun p => p.1 == s && r != p.1).map
          fun p => gen r p.2).join)) := by
  unfold conduct_peer_review
  have hkeys : (solvers.map fun s => (s, ([] : List PeerReview))).map Prod.fst =
      solvers := by
    rw [List.map_map]
    have hid : (Prod.fst ∘ fun s : String => (s, ([] : List PeerReview))) = id := rfl
    rw [hid, List.map_id]
  rw [reviewLoop_eq gen sols solvers _ (by rw [hkeys]; exact hin)]
  rw [List.map_map]
  congr 1

/-- Splitting off the self-review test from the key test. -/
theorem filter_conj (r k : String) (sols : List (String × Solution)) :
    (sols.filter fun p => p.1 == k && r != p.1) =
      if r = k then [] else sols.filter fun p => p.1 == k := by
  split
  · rename_i hrk
    apply List.filter_eq_nil.mpr
    intro p hp
    simp only [Bool.and_eq_true, beq_iff_eq, bne_iff_ne, not_and]
    intro h1 h2
    exact h2 (by rw [hrk, h1])
  · rename_i hrk
    apply List.filter_congr
    intro p hp
    by_cases h1 : p.1 = k
    · simp [h1, fun h : r = k => hrk h]
    · simp [h1]

/-- In a keyed list with distinct keys, filtering on one present key
yields exactly the entry under that key. -/
theorem filter_key_singleton {sols : List (String × Solution)}
    (hnd : (sols.map Prod.fst).Nodup) {k : String} (hk : k ∈ sols.map Prod.fst) :
    ∃ v, (k, v) ∈ sols ∧ (sols.filter fun p => p.1 == k) = [(k, v)] := by
  induction sols with
  | nil => cases hk
  | cons p0 rest ih =>
    obtain ⟨k0, v0⟩ := p0
    simp only [List.map_cons, List.nodup_cons] at hnd
    rcases List.mem_cons.mp hk with heq | hmem
    · subst heq
      refine ⟨v0, by simp, ?_⟩
      have hrest : (rest.filter fun p => p.1 == k) = [] := by
        apply List.filter_eq_nil_iff.mpr
        intro p hp
        simp only [beq_iff_eq]
        intro h1
        exact hnd.1 (h1 ▸ List.mem_map.mpr ⟨p, hp, rfl⟩)
      simp only [List.filter_cons, beq_self_eq_true, if_pos, hrest]
    · have hk0 : k0 ≠ k := by
        intro h0
        exact hnd.1 (h0 ▸ hmem)
      obtain ⟨v, hv1, hv2⟩ := ih hnd.2 hmem
      refine ⟨v, List.mem_cons_of_mem _ hv1, ?_⟩
      simp only [List.filter_cons]
      rw [if_neg (by simpa using hk0), hv2]

/-- Review pairs over two concrete review elements: helper for counting
one matching review among the pair received by a solution. -/
theorem filter_pair_length {rv1 rv2 : PeerReview} {x y r1 r2 : String}
    (h1 : rv1.reviewer_id = r1) (h1s : rv1.solution_id = y)
    (h2 : rv2.reviewer_id = r2) (h2s : rv2.solution_id = y)
    (hx : x = r1 ∧ x ≠ r2 ∨ x = r2 ∧ x ≠ r1) :
    (([rv1, rv2] : List PeerReview).filter fun rv =>
      rv.reviewer_id == x && rv.solution_id == y).length = 1 := by
  rcases hx with ⟨hx1, hx2⟩ | ⟨hx1, hx2⟩ <;>
    subst hx1 <;>
    simp [List.filter_cons, h1, h1s, h2, h2s, Ne.symm hx2, hx2]

/-- Claim C5: for a solver set of size 3 (distinct ids) and a solutions
map keyed by exactly those solvers (each entry carrying its key as its
`solver_id`), `conduct_peer_review` yields exactly 2 reviews per
solution, no review whose reviewer equals its solution, and exactly one
review for each ordered pair of distinct solvers.  `gen` abstracts
`generate_review`, whose `_parse_review` always copies the reviewer and
the reviewed solution's `solver_id` into the review. -/
theorem conduct_peer_review_pairs (gen : String → Solution → PeerReview)
    (solvers : List String) (sols : List (String × Solution))
    (hgen : ∀ r s, (gen r s).reviewer_id = r ∧ (gen r s).solution_id = s.solver_id)
    (hlen3 : solvers.length = 3) (hnd : solvers.Nodup)
    (hkeys : List.Perm (sols.map Prod.fst) solvers)
    (hsid : ∀ p ∈ sols, p.2.solver_id = p.1) :
    ∃ m, conduct_peer_review gen solvers sols = some m ∧
      (∀ k ∈ solvers, ∃ l, m.lookup k = some l ∧ l.length = 2) ∧
      (∀ kv ∈ m, ∀ rv ∈ kv.2, rv.reviewer_id ≠ rv.solution_id) ∧
      (∀ x ∈ solvers, ∀ y ∈ solvers, x ≠ y →
        (((m.map Prod.snd).join.filter fun rv =>
          rv.reviewer_id == x && rv.solution_id == y).length = 1)) := by
  obtain ⟨a, b, c, rfl⟩ := List.length_eq_three.mp hlen3
  have hsnd : (sols.map Prod.fst).Nodup := (hkeys.nodup_iff).mpr hnd
  have hab : a ≠ b := by intro h; rw [h] at hnd; simp at hnd
  have hac : a ≠ c := by intro h; rw [h] at hnd; simp at hnd
  have hbc : b ≠ c := by intro h; rw [h] at hnd; simp at hnd
  have hba := Ne.symm hab
  have hca := Ne.symm hac
  have hcb := Ne.symm hbc
  have hmema : a ∈ sols.map Prod.fst := hkeys.mem_iff.mpr (by simp)
  have hmemb : b ∈ sols.map Prod.fst := hkeys.mem_iff.mpr (by simp)
  have hmemc : c ∈ sols.map Prod.fst := hkeys.mem_iff.mpr (by simp)
  obtain ⟨va, hva, hfa⟩ := filter_key_singleton hsnd hmema
  obtain ⟨vb, hvb, hfb⟩ := filter_key_singleton hsnd hmemb
  obtain ⟨vc, hvc, hfc⟩ := filter_key_singleton hsnd hmemc
  have hvaid : va.solver_id = a := hsid _ hva
  have hvbid : vb.solver_id = b := hsid _ hvb
  have hvcid : vc.solver_id = c := hsid _ hvc
  have hrev : ∀ r s, (gen r s).reviewer_id = r := fun r s => (hgen r s).1
  have hsol : ∀ r s, (gen r s).solution_id = s.solver_id := fun r s => (hgen r s).2
  have hin : ∀ p ∈ sols, p.1 ∈ [a, b, c] := by
    intro p hp
    exact hkeys.mem_iff.mp (List.mem_map.mpr ⟨p, hp, rfl⟩)
  have heq := conduct_peer_review_eq gen [a, b, c] sols hin
  have hm : conduct_peer_review gen [a, b, c] sols = some
      [(a, [gen b va, gen c va]), (b, [gen a vb, gen c vb]),
       (c, [gen a vc, gen b vc])] := by
    rw [heq]
    simp only [List.map_cons, List.map_nil, filter_conj, List.join_cons,
      List.join_nil]
    rw [if_neg hba, if_neg hca, if_neg hab, if_neg hcb, if_neg hac, if_neg hbc,
      hfa, hfb, hfc]
    simp
  refine ⟨_, hm, ?_, ?_, ?_⟩
  · intro k hk
    simp only [List.mem_cons, List.not_mem_nil, or_false] at hk
    rcases hk with rfl | rfl | rfl
    · exact ⟨[gen b va, gen c va], by simp [List.lookup], rfl⟩
    · exact ⟨[gen a vb, gen c vb],
        by simp [List.lookup, beq_eq_false_iff_ne.mpr hba], rfl⟩
    · exact ⟨[gen a vc, gen b vc],
        by simp [List.lookup, beq_eq_false_iff_ne.mpr hca,
          beq_eq_false_iff_ne.mpr hcb], rfl⟩
  · intro kv hkv rv hrv
    simp only [List.mem_cons, List.not_mem_nil, or_false] at hkv
    rcases hkv with rfl | rfl | rfl <;>
      simp only [List.mem_cons, List.not_mem_nil, or_false] at hrv <;>
      rcases hrv with rfl | rfl <;>
      rw [hrev, hsol] <;>
      simp [hvaid, hvbid, hvcid, hba, hca, hab, hcb, hac, hbc]
  · intro x hx y hy hxy
    simp only [List.mem_cons, List.not_mem_nil, or_false] at hx hy
    have hjoin : (([(a, [gen b va, gen c va]), (b, [gen a vb, gen c vb]),
        (c, [gen a vc, gen b vc])].map Prod.snd).join) =
        [gen b va, gen c va] ++ ([gen a vb, gen c vb] ++
          ([gen a vc, gen b vc] ++ [])) := by
      simp
    rw [hjoin]
    rw [List.filter_append, List.filter_append, List.filter_append,
      List.length_append, List.length_append, List.length_append]
    have hzero : ∀ (u w r1 r2 : String) (v : Solution) (k : String),
        v.solver_id = k → k ≠ w →
        (([gen r1 v, gen r2 v] : List PeerReview).filter fun rv =>
          rv.reviewer_id == u && rv.solution_id == w).length = 0 := by
      intro u w r1 r2 v k hk hkw
      simp [List.filter_cons, hrev, hsol, hk, hkw]
    have hone : ∀ (u w r1 r2 : String) (v : Solution) (k : String),
        v.solver_id = k → k = w →
        (u = r1 ∧ u ≠ r2 ∨ u = r2 ∧ u ≠ r1) →
        (([gen r1 v, gen r2 v] : List PeerReview).filter fun rv =>
          rv.reviewer_id == u && rv.solution_id == w).length = 1 := by
      intro u w r1 r2 v k hk hkw hu12
      exact filter_pair_length (hrev r1 v) (by rw [hsol, hk, hkw])
        (hrev r2 v) (by rw [hsol, hk, hkw]) hu12
    rcases hx with hx1 | hx1 | hx1 <;> rcases hy with hy1 | hy1 | hy1 <;>
      rw [hx1, hy1]
    · exact absurd (hx1.trans hy1.symm) hxy
    · rw [hzero a b b c va a hvaid hab,
        hone a b a c vb b hvbid rfl (Or.inl ⟨rfl, hac⟩),
        hzero a b a b vc c hvcid hcb]
      simp
    · rw [hzero a c b c va a hvaid hac, hzero a c a c vb b hvbid hbc,
        hone a c a b vc c hvcid rfl (Or.inl ⟨rfl, hab⟩)]
      simp
    · rw [hone b a b c va a hvaid rfl (Or.inl ⟨rfl, hbc⟩),
        hzero b a a c vb b hvbid hba, hzero b a a b vc c hvcid hca]
      simp
    · exact absurd (hx1.trans hy1.symm) hxy
    · rw [hzero b c b c va a hvaid hac, hzero b c a c vb b hvbid hbc,
        hone b c a b vc c hvcid rfl (Or.inr ⟨rfl, hba⟩)]
      simp
    · rw [hone c a b c va a hvaid rfl (Or.inr ⟨rfl, hcb⟩),
        hzero c a a c vb b hvbid hba, hzero c a a b vc c hvcid hca]
      simp
    · rw [hzero c b b c va a hvaid hab,
        hone c b a c vb b hvbid rfl (Or.inr ⟨rfl, hca⟩),
        hzero c b a b vc c hvcid hcb]
      simp
    · exact absurd (hx1.trans hy1.symm) hxy
end PeerReview

/-- Witness for `PeerReview.conduct_peer_review_pairs` at a concrete
three-solver pool. -/
theorem conduct_peer_review_pairs_witness :
    ∃ m, PeerReview.conduct_peer_review
        (fun r s => ⟨r, s.solver_id, [], [], [], [],
          Models.Assessment.promising_but_flawed, mkRat 7 10⟩)
        ["gemini-2", "gemini-3", "gemini-4"]
        [("gemini-2", ⟨"gemini-2", "", "", mkRat 1 2, [""], []⟩),
         ("gemini-3", ⟨"gemini-3", "", "", mkRat 1 2, [""], []⟩),
         ("gemini-4", ⟨"gemini-4", "", "", mkRat 1 2, [""], []⟩)] = some m ∧
      (∀ k ∈ ["gemini-2", "gemini-3", "gemini-4"],
        ∃ l, m.lookup k = some l ∧ l.length = 2) := by
  obtain ⟨m, hm, hlk, -, -⟩ := PeerReview.conduct_peer_review_pairs
    (fun r s => ⟨r, s.solver_id, [], [], [], [],
      Models.Assessment.promising_but_flawed, mkRat 7 10⟩)
    ["gemini-2", "gemini-3", "gemini-4"]
    [("gemini-2", ⟨"gemini-2", "", "", mkRat 1 2, [""], []⟩),
     ("gemini-3", ⟨"gemini-3", "", "", mkRat 1 2, [""], []⟩),
     ("gemini-4", ⟨"gemini-4", "", "", mkRat 1 2, [""], []⟩)]
    (fun r s => ⟨rfl, rfl⟩) rfl (by decide) (by decide) (by decide)
  exact ⟨m, hm, hlk⟩
